import Mathlib

/-!
Shallow embedding of the rust-lox compiler and virtual machine
(src/value.rs, src/interner.rs, src/scanner.rs, src/chunk.rs,
src/function.rs, src/vm.rs, src/compiler.rs) together with proofs about
the behaviour its specification claims.

Modelling conventions:
* Rust `Vec<T>` is a Lean `List T` in the same order (push appends at the
  end, `truncate n` is `take n`, the top of the VM value stack is the last
  element).
* `HashMap<String, u32>` / `HashMap<u32, Value>` are association lists;
  the code only ever inserts a key that is absent (interner) or
  overwrites by key (globals), which the association-list operations
  mirror exactly.
* Machine integers are `Nat`; the single place where a width matters is
  the `as u32` cast in the interner (`% 4294967296` below).
* `f64` payloads are embedded as `ℚ`: the bit-level behaviour of IEEE
  doubles (rounding, NaN, formatting digits) is not modelled, and no
  claim settled here depends on it; the epsilon comparison of
  `values_equal` is kept with the same shape over `ℚ`.
-/

namespace Lox

/-! ## Values (src/value.rs) -/

/-- Mirrors `static ERR_MARGIN: f64 = f64::EPSILON;` — `f64::EPSILON = 2⁻⁵²`. -/
def ERR_MARGIN : ℚ := 1 / 2 ^ 52

/-- Mirrors `enum Value` of src/value.rs. -/
inductive Value where
  | Bool (b : Bool)
  | Nil
  | Number (n : ℚ)
  | StringObj (h : Nat)
  | Identifier (h : Nat)
  | Function (h : Nat)
deriving DecidableEq

/-- Variant tag of a `Value`, used to speak about cross-variant pairs. -/
def Value.tag : Value → Nat
  | .Bool _ => 0
  | .Nil => 1
  | .Number _ => 2
  | .StringObj _ => 3
  | .Identifier _ => 4
  | .Function _ => 5

/-- Mirrors `values_equal` of src/value.rs lines 45-54: a five-arm match
(Bool, Nil, Number with epsilon tolerance, StringObj, Function) with a
catch-all returning `false`.  Note the source has no arm for
`(Identifier, Identifier)`. -/
def values_equal (av bv : Value) : Bool :=
  match av, bv with
  | .Bool a, .Bool b => a == b
  | .Nil, .Nil => true
  | .Number a, .Number b => decide (|a - b| < ERR_MARGIN)
  | .StringObj a, .StringObj b => a == b
  | .Function a, .Function b => a == b
  | _, _ => false

/-! ## Interner (src/interner.rs) -/

/-- `HashMap<String, u32>::get` on the association-list model. -/
def lookupAssoc (m : List (String × Nat)) (k : String) : Option Nat :=
  (m.find? (fun p => p.1 == k)).map (fun p => p.2)

/-- Mirrors `struct Interner { map: HashMap<String, u32>, vec: Vec<String> }`. -/
structure Interner where
  map : List (String × Nat)
  vec : List String
deriving DecidableEq

/-- Mirrors `Interner::intern` (src/interner.rs lines 13-22): return the
existing handle if the name is present, else hand out `map.len() as u32`
(the cast is the `% 4294967296`) and append to both the map and the vec. -/
def Interner.intern (i : Interner) (name : String) : Nat × Interner :=
  match lookupAssoc i.map name with
  | some idx => (idx, i)
  | none =>
    let idx := i.map.length % 4294967296
    (idx, ⟨i.map ++ [(name, idx)], i.vec ++ [name]⟩)

/-- Mirrors `Interner::intern_string` (src/interner.rs lines 24-33); the
Rust difference to `intern` is only ownership of the argument. -/
def Interner.intern_string (i : Interner) (name : String) : Nat × Interner :=
  match lookupAssoc i.map name with
  | some idx => (idx, i)
  | none =>
    let idx := i.map.length % 4294967296
    (idx, ⟨i.map ++ [(name, idx)], i.vec ++ [name]⟩)

/-- Mirrors `Interner::lookup` (src/interner.rs lines 35-37); in Rust an
out-of-range handle panics, which no reachable state produces, so the
model totalises with a default. -/
def Interner.lookup (i : Interner) (idx : Nat) : String := i.vec.getD idx ""

/-- Consistency of the two interner fields, as the code maintains it:
the map sends a string to a handle exactly when the vec stores that
string at that index, the two containers have the same size, and that
size still fits in a `u32`. -/
def Interner.Wf (i : Interner) : Prop :=
  i.map.length = i.vec.length ∧ i.vec.length < 4294967296 ∧
  ∀ s idx, lookupAssoc i.map s = some idx ↔ i.vec.get? idx = some s

def emptyInterner : Interner := ⟨[], []⟩

/-! ## Scanner (src/scanner.rs)

The source is a byte string; the spec restricts sources to ASCII, so the
`List Char` model coincides with the byte view on every input used here.
The Rust loops (`skip_whitespace`, the comment loop, identifier / number
/ string scanning) advance the cursor on every iteration; they are
embedded with an explicit fuel argument initialised to more characters
than remain, which therefore never runs out. -/

/-- Mirrors `enum TokenType` of src/scanner.rs. -/
inductive TokenType where
  | LeftParen | RightParen | LeftBrace | RightBrace | Comma | Dot
  | Minus | Plus | Semicolon | Slash | Star
  | Bang | BangEqual | Equal | EqualEqual
  | Greater | GreaterEqual | Less | LessEqual
  | Identifier | String | Number
  | And | Class | Else | False | For | Fun | If | Nil | Or
  | Print | Return | Super | This | True | Var | While
  | Error | Eof
deriving DecidableEq

/-- Mirrors `struct Token`; the lexeme is the slice `src[start..current]`
(or the static message for error tokens). -/
structure Token where
  token_type : TokenType
  line : Nat
  lexeme : List Char
deriving DecidableEq

/-- Mirrors `struct Scanner`. -/
structure Scanner where
  start : Nat
  current : Nat
  src : List Char
  line : Nat
deriving DecidableEq

/-- Mirrors `Scanner::new`. -/
def Scanner.mk0 (source : List Char) : Scanner := ⟨0, 0, source, 1⟩

/-- Mirrors `fn is_alpha` (ASCII letter or underscore). -/
def is_alpha (c : Char) : Bool := c.isAlpha || c = '_'

/-- Mirrors `fn is_digit`. -/
def is_digit (c : Char) : Bool := c.isDigit

def Scanner.is_at_end (s : Scanner) : Bool := s.current == s.src.length

/-- Mirrors `Scanner::peek`: NUL at end of input, else the current byte. -/
def Scanner.peekc (s : Scanner) : Char :=
  if s.is_at_end then '\x00' else s.src.getD s.current '\x00'

/-- Mirrors `Scanner::peek_next` (`current > len - 2` is the Rust guard;
for sources of length < 2 the Rust subtraction underflows and panics,
never hit below). -/
def Scanner.peek_next (s : Scanner) : Char :=
  if s.current > s.src.length - 2 then '\x00' else s.src.getD (s.current + 1) '\x00'

/-- Mirrors `Scanner::advance` (reads `src[current]`, then bumps the
cursor; the Rust indexing panics at end of input, which callers avoid). -/
def Scanner.advance (s : Scanner) : Char × Scanner :=
  (s.src.getD s.current '\x00', { s with current := s.current + 1 })

/-- Mirrors `Scanner::check_next`. -/
def Scanner.check_next (s : Scanner) (expected : Char) : Bool × Scanner :=
  if s.is_at_end ∨ s.src.getD s.current '\x00' ≠ expected then (false, s)
  else (true, { s with current := s.current + 1 })

/-- Mirrors `Scanner::make_token`. -/
def Scanner.make_token (s : Scanner) (tt : TokenType) : Token :=
  ⟨tt, s.line, (s.src.take s.current).drop s.start⟩

/-- Mirrors `Scanner::error_token`. -/
def Scanner.error_token (s : Scanner) (msg : List Char) : Token :=
  ⟨.Error, s.line, msg⟩

/-- The inner `while self.peek() != b'\n' && !self.is_at_end()` comment
loop of `skip_whitespace` (src/scanner.rs lines 128-130). -/
def skipCommentAux : Nat → Scanner → Scanner
  | 0, s => s
  | fuel + 1, s =>
    if s.peekc ≠ '\n' ∧ ¬s.is_at_end then
      skipCommentAux fuel { s with current := s.current + 1 }
    else s

/-- Mirrors `Scanner::skip_whitespace` (src/scanner.rs lines 115-139).
Note the faithful `break` in the `b'/'` arm: after consuming a `//`
comment up to (but not including) the newline, the loop is left, so the
newline is NOT consumed and the line counter is NOT advanced. -/
def skipWhitespaceAux : Nat → Scanner → Scanner
  | 0, s => s
  | fuel + 1, s =>
    let c := s.peekc
    if c = ' ' ∨ c = '\r' ∨ c = '\t' then
      skipWhitespaceAux fuel { s with current := s.current + 1 }
    else if c = '\n' then
      skipWhitespaceAux fuel { s with line := s.line + 1, current := s.current + 1 }
    else if c = '/' then
      if s.peek_next = '/' then
        skipCommentAux (s.src.length + 1 - s.current) s
      else s
    else s

def Scanner.skip_whitespace (s : Scanner) : Scanner :=
  skipWhitespaceAux (s.src.length + 1 - s.current) s

/-- Mirrors `Scanner::check_keyword`. -/
def Scanner.check_keyword (s : Scanner) (kstart klen : Nat) (rest : List Char)
    (tt : TokenType) : TokenType :=
  if s.current - s.start = kstart + klen ∧
      (s.src.drop (s.start + kstart)).take klen = rest then tt
  else .Identifier

/-- Mirrors `Scanner::identifier_type` (src/scanner.rs lines 156-188),
with the source's match arms in their original order.  The source has
TWO arms guarded on the byte `b'f'` (lines 161-169 and lines 176-183);
the second one — the one holding the `this` / `true` keywords — is
unreachable because the first matches every `f`-lexeme of length > 1,
and no arm tests `b't'`. -/
def Scanner.identifier_type (s : Scanner) : TokenType :=
  let c := s.src.getD s.start '\x00'
  if c = 'a' then s.check_keyword 1 2 [ 'n', 'd' ] .And
  else if c = 'c' then s.check_keyword 1 4 [ 'l', 'a', 's', 's' ] .Class
  else if c = 'e' then s.check_keyword 1 3 [ 'l', 's', 'e' ] .Else
  else if c = 'f' ∧ s.current - s.start > 1 then
    match s.src.getD (s.start + 1) '\x00' with
    | 'a' => s.check_keyword 2 3 [ 'l', 's', 'e' ] .False
    | 'o' => s.check_keyword 2 1 [ 'r' ] .For
    | 'u' => s.check_keyword 2 1 [ 'n' ] .Fun
    | _ => .Identifier
  else if c = 'i' then s.check_keyword 1 1 [ 'f' ] .If
  else if c = 'n' then s.check_keyword 1 2 [ 'i', 'l' ] .Nil
  else if c = 'o' then s.check_keyword 1 1 [ 'r' ] .Or
  else if c = 'p' then s.check_keyword 1 4 [ 'r', 'i', 'n', 't' ] .Print
  else if c = 'r' then s.check_keyword 1 5 [ 'e', 't', 'u', 'r', 'n' ] .Return
  else if c = 's' then s.check_keyword 1 4 [ 'u', 'p', 'e', 'r' ] .Super
  else if c = 'f' ∧ s.current - s.start > 1 then
    match s.src.getD (s.start + 1) '\x00' with
    | 'h' => s.check_keyword 2 2 [ 'i', 's' ] .This
    | 'r' => s.check_keyword 2 2 [ 'u', 'e' ] .True
    | _ => .Identifier
  else if c = 'v' then s.check_keyword 1 2 [ 'a', 'r' ] .Var
  else if c = 'w' then s.check_keyword 1 4 [ 'h', 'i', 'l', 'e' ] .While
  else .Identifier

/-- The `while is_alpha(peek) || is_digit(peek)` loop of
`Scanner::identifier`. -/
def identifierAux : Nat → Scanner → Scanner
  | 0, s => s
  | fuel + 1, s =>
    if is_alpha s.peekc || is_digit s.peekc then
      identifierAux fuel { s with current := s.current + 1 }
    else s

/-- Mirrors `Scanner::identifier`. -/
def Scanner.identifier (s : Scanner) : Token × Scanner :=
  let s1 := identifierAux (s.src.length + 1 - s.current) s
  (s1.make_token s1.identifier_type, s1)

/-- The digit-consuming loops of `Scanner::number`. -/
def digitsAux : Nat → Scanner → Scanner
  | 0, s => s
  | fuel + 1, s =>
    if is_digit s.peekc then digitsAux fuel { s with current := s.current + 1 }
    else s

/-- Mirrors `Scanner::number`. -/
def Scanner.number (s : Scanner) : Token × Scanner :=
  let s1 := digitsAux (s.src.length + 1 - s.current) s
  let s2 :=
    if s1.peekc = '.' ∧ is_digit s1.peek_next then
      digitsAux (s1.src.length - s1.current) { s1 with current := s1.current + 1 }
    else s1
  (s2.make_token .Number, s2)

/-- The `while self.peek() != b'"' && !self.is_at_end()` loop of
`Scanner::string`, advancing the line counter over embedded newlines. -/
def stringAux : Nat → Scanner → Scanner
  | 0, s => s
  | fuel + 1, s =>
    if s.peekc ≠ '"' ∧ ¬s.is_at_end then
      if s.peekc = '\n' then
        stringAux fuel { s with line := s.line + 1, current := s.current + 1 }
      else stringAux fuel { s with current := s.current + 1 }
    else s

/-- Mirrors `Scanner::string`. -/
def Scanner.string (s : Scanner) : Token × Scanner :=
  let s1 := stringAux (s.src.length + 1 - s.current) s
  if s1.is_at_end then (s1.error_token "Unterminated string.".toList, s1)
  else
    let s2 := { s1 with current := s1.current + 1 }
    (s2.make_token .String, s2)

/-- Mirrors `Scanner::scan_token` (src/scanner.rs lines 17-57). -/
def Scanner.scan_token (s0 : Scanner) : Token × Scanner :=
  let sw := s0.skip_whitespace
  let s := { sw with start := sw.current }
  if s.is_at_end then (s.make_token .Eof, s)
  else
    let (c, s1) := s.advance
    if is_alpha c then s1.identifier
    else if is_digit c then s1.number
    else if c = '(' then (s1.make_token .LeftParen, s1)
    else if c = ')' then (s1.make_token .RightParen, s1)
    else if c = '\x7b' then (s1.make_token .LeftBrace, s1)
    else if c = '\x7d' then (s1.make_token .RightBrace, s1)
    else if c = ';' then (s1.make_token .Semicolon, s1)
    else if c = ',' then (s1.make_token .Comma, s1)
    else if c = '.' then (s1.make_token .Dot, s1)
    else if c = '-' then (s1.make_token .Minus, s1)
    else if c = '+' then (s1.make_token .Plus, s1)
    else if c = '/' then (s1.make_token .Slash, s1)
    else if c = '*' then (s1.make_token .Star, s1)
    else if c = '!' then
      let (m, s2) := s1.check_next '='
      if m then (s2.make_token .BangEqual, s2) else (s2.make_token .Bang, s2)
    else if c = '=' then
      let (m, s2) := s1.check_next '='
      if m then (s2.make_token .EqualEqual, s2) else (s2.make_token .Equal, s2)
    else if c = '<' then
      let (m, s2) := s1.check_next '='
      if m then (s2.make_token .LessEqual, s2) else (s2.make_token .Less, s2)
    else if c = '>' then
      let (m, s2) := s1.check_next '='
      if m then (s2.make_token .GreaterEqual, s2) else (s2.make_token .Greater, s2)
    else if c = '"' then s1.string
    else (s1.error_token "Unexpected character.".toList, s1)

/-! ## Chunk, Function (src/chunk.rs, src/function.rs) -/

/-- Mirrors `enum OpCode` of src/chunk.rs; the `u8` / `usize` operands are
`Nat` here (the compiler only emits byte-sized constant and slot indices). -/
inductive OpCode where
  | Constant (i : Nat)
  | Nil
  | True
  | False
  | Pop
  | DefineGlobal (i : Nat)
  | GetGlobal (i : Nat)
  | SetGlobal (i : Nat)
  | GetLocal (i : Nat)
  | SetLocal (i : Nat)
  | Equal
  | Greater
  | Less
  | Add
  | Subtract
  | Multiply
  | Divide
  | Not
  | Negate
  | Print
  | Jump (d : Nat)
  | JumpIfFalse (d : Nat)
  | Loop (d : Nat)
  | Return
  | Call (n : Nat)
deriving DecidableEq

/-- Mirrors `struct Chunk` (the `ValueArray` wrapper is flattened into the
constants list). -/
structure Chunk where
  code : List OpCode
  constants : List Value
  lines : List Nat
deriving DecidableEq

/-- Mirrors `struct Function` of src/function.rs. -/
structure Function where
  arity : Nat
  chunk : Chunk
  name : Option Nat
deriving DecidableEq

/-! ## VM (src/vm.rs) -/

/-- Mirrors `pub const USIZE_COUNT: usize = u8::MAX as usize + 1;`
(src/compiler.rs line 10). -/
def USIZE_COUNT : Nat := 256

/-- Mirrors `const FRAMES_MAX: usize = 64;` (src/vm.rs line 12). -/
def FRAMES_MAX : Nat := 64

/-- Mirrors `const STACK_SIZE: usize = FRAMES_MAX * USIZE_COUNT;`
(src/vm.rs line 11). -/
def STACK_SIZE : Nat := FRAMES_MAX * USIZE_COUNT

/-- Mirrors `struct CallFrame`. -/
structure CallFrame where
  f_idx : Nat
  ip : Nat
  slot_offset : Nat
deriving DecidableEq

/-- Mirrors `CallFrame::new`. -/
def CallFrame.new (f_idx current_slot : Nat) : CallFrame := ⟨f_idx, 0, current_slot⟩

/-- The VM state: `struct VM` plus the accumulated stdout text (each
entry is the text of one `print!`/`println!` burst; concatenated in
order they are the bytes written to stdout). -/
structure VMState where
  frames : List CallFrame
  stack : List Value
  globals : List (Nat × Value)
  functions : List Function
  interner : Interner
  output : List String
deriving DecidableEq

/-- `HashMap<u32, Value>::get`. -/
def globalsGet (g : List (Nat × Value)) (k : Nat) : Option Value :=
  (g.find? (fun p => p.1 == k)).map (fun p => p.2)

/-- `HashMap<u32, Value>::insert` (replace the binding if the key is
present, else add it). -/
def globalsInsert (g : List (Nat × Value)) (k : Nat) (v : Value) : List (Nat × Value) :=
  match g with
  | [] => [(k, v)]
  | p :: rest => if p.1 == k then (k, v) :: rest else p :: globalsInsert rest k v

/-- Stand-in for Rust `{:?}` formatting of an `f64`; the digits a double
renders to are not modelled and no claim below depends on them. -/
def fmtNumber (n : ℚ) : String := toString n

/-- Mirrors `print_value` of src/value.rs lines 34-43, returning the text
a call writes to stdout.  Note the `bool: `, `number: `, `StringObj: `,
`Identifier: ` and `Function id: ` prefixes present in the source. -/
def print_value (v : Value) (i : Interner) : String :=
  match v with
  | .Bool b => "bool: " ++ (if b then "true" else "false")
  | .Nil => "nil"
  | .Number n => "number: " ++ fmtNumber n
  | .StringObj s => "StringObj: " ++ toString s ++ ": " ++ i.lookup s
  | .Identifier s => "Identifier: " ++ toString s ++ ": " ++ i.lookup s
  | .Function s => "Function id: " ++ toString s

/-- Mirrors `VM::is_falsey`. -/
def is_falsey (v : Value) : Bool :=
  match v with
  | .Bool b => !b
  | .Nil => true
  | _ => false

/-- Mirrors `VM::peek` (src/vm.rs lines 256-261): `stack.get(len - 1 -
distance)`; `none` is the case in which the Rust `expect` panics. -/
def peekStack (st : List Value) (distance : Nat) : Option Value :=
  if distance + 1 ≤ st.length then st.get? (st.length - 1 - distance) else none

/-- `Vec::pop` (`VM::pop` panics on `none`; the bare `self.stack.pop();`
of the `Pop` arm ignores the result). -/
def popStack (st : List Value) : Option (Value × List Value) :=
  match st.getLast? with
  | some v => some (v, st.dropLast)
  | none => none

/-- Result of one dispatch-loop iteration.  `err` is `runtime_error`
(message printed to stderr, interpreter halts with `RuntimeError`);
`crash` is a Rust panic (a failed `expect` or an out-of-bounds index);
`halt` is the `return Ok(())` of the final `Return`. -/
inductive StepRes where
  | ok (σ : VMState)
  | halt (σ : VMState)
  | err (σ : VMState) (msg : String)
  | crash (msg : String)
deriving DecidableEq

/-- The `self.frames.last_mut().unwrap().ip += 1;` at the bottom of the
dispatch loop. -/
def bumpIp (fs : List CallFrame) : List CallFrame :=
  fs.dropLast ++
    (match fs.getLast? with
     | some f => [{ f with ip := f.ip + 1 }]
     | none => [])

/-- Set the instruction pointer of the innermost frame (used by the jump
arms, which add their offset before the common increment). -/
def setIp (fs : List CallFrame) (v : Nat) : List CallFrame :=
  fs.dropLast ++
    (match fs.getLast? with
     | some f => [{ f with ip := v }]
     | none => [])

/-- Mirrors `VM::binary_op` (src/vm.rs lines 320-339): pop the right then
the left operand; on two numbers push the converted result, otherwise
push the operands back and raise a runtime error.  `f` is the Rust
`convert ∘ f` composed. -/
def binary_op (σ : VMState) (f : ℚ → ℚ → Value) : StepRes :=
  match popStack σ.stack with
  | none => .crash "Empty stack"
  | some (b, st1) =>
    match popStack st1 with
    | none => .crash "Empty stack"
    | some (a, st2) =>
      match a, b with
      | .Number x, .Number y =>
        .ok { σ with stack := st2 ++ [f x y], frames := bumpIp σ.frames }
      | _, _ => .err { σ with stack := st2 ++ [a] ++ [b] } "Operands must be two numbers."

/-- Mirrors `VM::concatenate` (src/vm.rs lines 299-318). -/
def concatenate (σ : VMState) : StepRes :=
  match popStack σ.stack with
  | none => .crash "Empty stack"
  | some (b, st1) =>
    match popStack st1 with
    | none => .crash "Empty stack"
    | some (a, st2) =>
      match b, a with
      | .StringObj bh, .StringObj ah =>
        let b_str := σ.interner.lookup bh
        let a_str := σ.interner.lookup ah
        let r := σ.interner.intern_string (a_str ++ b_str)
        .ok { σ with stack := st2 ++ [Value.StringObj r.1], interner := r.2,
                     frames := bumpIp σ.frames }
      | _, _ => .err { σ with stack := st2 ++ [a] ++ [b] } "Operands must be two strings."

/-- Mirrors `VM::call` (src/vm.rs lines 263-279). -/
def callFn (σ : VMState) (f_idx arg_count : Nat) : StepRes :=
  match σ.functions.get? f_idx with
  | none => .crash "index out of bounds"
  | some fn =>
    if arg_count ≠ fn.arity then
      .err σ ("Expected " ++ toString fn.arity ++ " arguments but got " ++
              toString arg_count ++ ".")
    else if σ.frames.length = FRAMES_MAX then
      .err σ "Stack overflow."
    else
      .ok { σ with frames := σ.frames ++ [CallFrame.new f_idx (σ.stack.length - arg_count - 1)] }

/-- Mirrors `VM::call_value`. -/
def call_value (σ : VMState) (callee : Value) (arg_count : Nat) : StepRes :=
  match callee with
  | .Function f_idx => callFn σ f_idx arg_count
  | _ => .err σ "Can only call functions and classes."

/-- One arm of the `match op` in `VM::run` (src/vm.rs lines 91-246),
including the trailing `ip += 1` (skipped by `Call`, which `continue`s,
and by the final `Return`, which leaves the loop). -/
def execOp (σ : VMState) (fr : CallFrame) (fn : Function) : OpCode → StepRes
  | .Constant idx =>
    match fn.chunk.constants.get? idx with
    | none => .crash "index out of bounds"
    | some c =>
      .ok { σ with stack := σ.stack ++ [c],
                   output := σ.output ++ [print_value c σ.interner ++ "\n"],
                   frames := bumpIp σ.frames }
  | .Nil => .ok { σ with stack := σ.stack ++ [Value.Nil], frames := bumpIp σ.frames }
  | .True => .ok { σ with stack := σ.stack ++ [Value.Bool true], frames := bumpIp σ.frames }
  | .False => .ok { σ with stack := σ.stack ++ [Value.Bool false], frames := bumpIp σ.frames }
  | .Pop => .ok { σ with stack := σ.stack.dropLast, frames := bumpIp σ.frames }
  | .DefineGlobal idx =>
    match fn.chunk.constants.get? idx with
    | none => .crash "index out of bounds"
    | some c =>
      match c with
      | .Identifier name =>
        match peekStack σ.stack 0 with
        | none => .crash "Failed to peek"
        | some v =>
          .ok { σ with globals := globalsInsert σ.globals name v,
                       stack := σ.stack.dropLast, frames := bumpIp σ.frames }
      | _ => .err σ "constant is not Value::Identifier!"
  | .GetGlobal idx =>
    match fn.chunk.constants.get? idx with
    | none => .crash "index out of bounds"
    | some c =>
      match c with
      | .Identifier name =>
        match globalsGet σ.globals name with
        | some v => .ok { σ with stack := σ.stack ++ [v], frames := bumpIp σ.frames }
        | none => .err σ ("Undefined variable " ++ toString name ++ ".")
      | _ => .err σ "constant is not Value::Identifier!"
  | .SetGlobal idx =>
    match fn.chunk.constants.get? idx with
    | none => .crash "index out of bounds"
    | some c =>
      match c with
      | .Identifier name =>
        if (globalsGet σ.globals name).isSome then
          match peekStack σ.stack 0 with
          | none => .crash "Failed to peek"
          | some v =>
            .ok { σ with globals := globalsInsert σ.globals name v,
                         frames := bumpIp σ.frames }
        else .err σ ("Cannot assign to undefined variable " ++ toString name ++ ".")
      | _ => .err σ "constant is not Value::Identifier!"
  | .GetLocal i =>
    match σ.stack.get? (fr.slot_offset + i) with
    | none => .crash "index out of bounds"
    | some v => .ok { σ with stack := σ.stack ++ [v], frames := bumpIp σ.frames }
  | .SetLocal i =>
    match peekStack σ.stack 0 with
    | none => .crash "Failed to peek"
    | some v =>
      if fr.slot_offset + i < σ.stack.length then
        .ok { σ with stack := σ.stack.set (fr.slot_offset + i) v,
                     frames := bumpIp σ.frames }
      else .crash "index out of bounds"
  | .Equal =>
    match popStack σ.stack with
    | none => .crash "Empty stack"
    | some (b, st1) =>
      match popStack st1 with
      | none => .crash "Empty stack"
      | some (a, st2) =>
        .ok { σ with stack := st2 ++ [Value.Bool (values_equal a b)],
                     frames := bumpIp σ.frames }
  | .Greater => binary_op σ (fun x y => Value.Bool (decide (x > y)))
  | .Less => binary_op σ (fun x y => Value.Bool (decide (x < y)))
  | .Add =>
    match peekStack σ.stack 0, peekStack σ.stack 1 with
    | some v0, some v1 =>
      match v0, v1 with
      | .Number _, .Number _ => binary_op σ (fun x y => Value.Number (x + y))
      | .StringObj _, .StringObj _ => concatenate σ
      | _, _ => .err σ "Operand must be a number."
    | _, _ => .crash "Failed to peek"
  | .Subtract => binary_op σ (fun x y => Value.Number (x - y))
  | .Multiply => binary_op σ (fun x y => Value.Number (x * y))
  | .Divide => binary_op σ (fun x y => Value.Number (x / y))
  | .Not =>
    match popStack σ.stack with
    | none => .crash "Empty stack"
    | some (v, st) =>
      .ok { σ with stack := st ++ [Value.Bool (is_falsey v)], frames := bumpIp σ.frames }
  | .Negate =>
    match peekStack σ.stack 0 with
    | none => .crash "Failed to peek"
    | some v =>
      match v with
      | .Number x =>
        .ok { σ with stack := σ.stack.dropLast ++ [Value.Number (-x)],
                     frames := bumpIp σ.frames }
      | _ => .err σ "Operand must be a number."
  | .Print =>
    match popStack σ.stack with
    | none => .crash "Empty stack"
    | some (v, st) =>
      .ok { σ with stack := st,
                   output := σ.output ++ ["OpCode::Print: " ++ print_value v σ.interner ++ "\n"],
                   frames := bumpIp σ.frames }
  | .Jump d => .ok { σ with frames := setIp σ.frames (fr.ip + d + 1) }
  | .JumpIfFalse d =>
    match peekStack σ.stack 0 with
    | none => .crash "Failed to peek"
    | some v =>
      if is_falsey v then .ok { σ with frames := setIp σ.frames (fr.ip + d + 1) }
      else .ok { σ with frames := bumpIp σ.frames }
  | .Loop d =>
    if d + 1 ≤ fr.ip then .ok { σ with frames := setIp σ.frames (fr.ip - d) }
    else .crash "usize underflow"
  | .Return =>
    match popStack σ.stack with
    | none => .crash "Empty stack"
    | some (ret, st1) =>
      let frames1 := σ.frames.dropLast
      match frames1.getLast? with
      | none => .halt { σ with frames := frames1, stack := st1.dropLast }
      | some caller =>
        .ok { σ with frames := bumpIp frames1,
                     stack := st1.take caller.slot_offset ++ [ret] }
  | .Call n =>
    match peekStack σ.stack n with
    | none => .crash "Failed to peek"
    | some callee => call_value σ callee n

/-- One iteration of `VM::run`: fetch the current frame, its function,
the opcode at `ip`, and dispatch. -/
def vmStep (σ : VMState) : StepRes :=
  match σ.frames.getLast? with
  | none => .crash "no call frame"
  | some fr =>
    match σ.functions.get? fr.f_idx with
    | none => .crash "index out of bounds"
    | some fn =>
      match fn.chunk.code.get? fr.ip with
      | some op => execOp σ fr fn op
      | none => .crash "ip out of bounds"

/-- `VM::run` bounded by a step count: `runFuel k σ` performs up to `k`
dispatch iterations and returns `.ok` with the state reached if the loop
is still running. -/
def runFuel : Nat → VMState → StepRes
  | 0, σ => .ok σ
  | k + 1, σ =>
    match vmStep σ with
    | .ok σ1 => runFuel k σ1
    | r => r

/-! ## Expression code generation (src/compiler.rs)

The parser is a single-pass Pratt parser that emits code directly; the
tree it implicitly walks is materialised here as `Expr`, and
`compileExpr` reproduces, constructor by constructor, the opcode
sequences the corresponding `rule_*` functions emit:

* `num` / `str`    — `rule_number` / `rule_string` → `emit_constant`
  (`make_constant` + `Constant(idx)`);
* `litTrue` / `litFalse` / `litNil` — `rule_literal`;
* `getLocal` / `getGlobal` / `setLocal` / `setGlobal` —
  `named_variable`: the global name is interned into the constant pool
  before any `=`-RHS is compiled; the set opcode follows the RHS;
* `unaryNot` / `unaryNeg` — `rule_unary` (operand first, then `Not` /
  `Negate`);
* `bin`  — `rule_binary`: LHS, RHS, then the one or two opcodes of the
  lowering table;
* `land` — `rule_and`: `JumpIfFalse` over `Pop` + RHS, patched via
  `patch_jump` to `code.len() - 1 - offset = |RHS| + 1`;
* `lor`  — `rule_or`: `JumpIfFalse(1)` onto the `Pop`, `Jump(|RHS|+1)`
  over `Pop` + RHS.

Function calls never appear: src/compiler.rs registers no infix rule for
`(` and contains no construction of `OpCode::Call` at all, so compiled
expression code consists exactly of the opcodes below. -/

/-- The binary operators of the lowering table in `rule_binary`
(src/compiler.rs lines 442-460). -/
inductive BinOp where
  | add | sub | mul | div | eq | neq | gt | ge | lt | le
deriving DecidableEq

/-- The emitted opcodes of `rule_binary`, one row per match arm. -/
def BinOp.emitted : BinOp → List OpCode
  | .neq => [.Equal, .Not]
  | .eq => [.Equal]
  | .gt => [.Greater]
  | .ge => [.Less, .Not]
  | .lt => [.Less]
  | .le => [.Greater, .Not]
  | .add => [.Add]
  | .sub => [.Subtract]
  | .mul => [.Multiply]
  | .div => [.Divide]

/-- The expressions the parser can compile (grouping parentheses have no
code of their own).  Identifier payloads carry the interner handle the
compiler would have produced; local slots carry the resolved index. -/
inductive Expr where
  | num (n : ℚ)
  | str (h : Nat)
  | litTrue
  | litFalse
  | litNil
  | getLocal (i : Nat)
  | setLocal (i : Nat) (rhs : Expr)
  | getGlobal (h : Nat)
  | setGlobal (h : Nat) (rhs : Expr)
  | unaryNot (e : Expr)
  | unaryNeg (e : Expr)
  | bin (op : BinOp) (lhs rhs : Expr)
  | land (lhs rhs : Expr)
  | lor (lhs rhs : Expr)

/-- Mirrors `Parser::make_constant`: `add_constant` appends to the pool
and returns the new index; indices above `u8::MAX` are a compile error
("Too many constants in one chunk."), modelled as `none`. -/
def makeConstant (pool : List Value) (v : Value) : Option (Nat × List Value) :=
  if pool.length ≤ 255 then some (pool.length, pool ++ [v]) else none

/-- The code and constant-pool suffix the parser emits for an
expression; `none` is a compile error. -/
def compileExpr : Expr → List Value → Option (List OpCode × List Value)
  | .num n, pool => do
    let (i, p) ← makeConstant pool (.Number n)
    pure ([.Constant i], p)
  | .str h, pool => do
    let (i, p) ← makeConstant pool (.StringObj h)
    pure ([.Constant i], p)
  | .litTrue, pool => some ([.True], pool)
  | .litFalse, pool => some ([.False], pool)
  | .litNil, pool => some ([.Nil], pool)
  | .getLocal i, pool => some ([.GetLocal i], pool)
  | .setLocal i rhs, pool => do
    let (c, p) ← compileExpr rhs pool
    pure (c ++ [.SetLocal i], p)
  | .getGlobal h, pool => do
    let (i, p) ← makeConstant pool (.Identifier h)
    pure ([.GetGlobal i], p)
  | .setGlobal h rhs, pool => do
    let (i, p1) ← makeConstant pool (.Identifier h)
    let (c, p2) ← compileExpr rhs p1
    pure (c ++ [.SetGlobal i], p2)
  | .unaryNot e, pool => do
    let (c, p) ← compileExpr e pool
    pure (c ++ [.Not], p)
  | .unaryNeg e, pool => do
    let (c, p) ← compileExpr e pool
    pure (c ++ [.Negate], p)
  | .bin op lhs rhs, pool => do
    let (cl, p1) ← compileExpr lhs pool
    let (cr, p2) ← compileExpr rhs p1
    pure (cl ++ cr ++ op.emitted, p2)
  | .land lhs rhs, pool => do
    let (cl, p1) ← compileExpr lhs pool
    let (cr, p2) ← compileExpr rhs p1
    pure (cl ++ [.JumpIfFalse (cr.length + 1), .Pop] ++ cr, p2)
  | .lor lhs rhs, pool => do
    let (cl, p1) ← compileExpr lhs pool
    let (cr, p2) ← compileExpr rhs p1
    pure (cl ++ [.JumpIfFalse 1, .Jump (cr.length + 1), .Pop] ++ cr, p2)

/-- Mirrors `Parser::expression_statement` (src/compiler.rs lines
723-727): the expression followed by a discarding `Pop`. -/
def compileExprStatement (e : Expr) (pool : List Value) :
    Option (List OpCode × List Value) := do
  let (c, p) ← compileExpr e pool
  pure (c ++ [.Pop], p)

/-! ## Concrete machine states used by the evaluations below -/

/-- A chunk whose code is the compiled form of `print nil;`:
`Constant(0)` then `Print` (plus the script-end `Return`). -/
def constNilChunk : Chunk := ⟨[.Constant 0, .Print, .Return], [.Nil], [1, 1, 1]⟩

def constNilFn : Function := ⟨0, constNilChunk, none⟩

/-- The VM right after `interpret` pushed the script frame for
`constNilFn`. -/
def constNilState : VMState := ⟨[⟨0, 0, 0⟩], [], [], [constNilFn], emptyInterner, []⟩

/-- `constNilState` after executing the `Constant(0)` instruction. -/
def constNilState1 : VMState :=
  ⟨[⟨0, 1, 0⟩], [.Nil], [], [constNilFn], emptyInterner, ["nil\n"]⟩

/-- `constNilState1` after executing the `Print` instruction. -/
def constNilState2 : VMState :=
  ⟨[⟨0, 2, 0⟩], [], [], [constNilFn], emptyInterner,
   ["nil\n", "OpCode::Print: nil\n"]⟩

/-- Functions of a program in which the script (function 0) calls the
parameterless function 1, whose body is a bare `Return`. -/
def returnBugFns : List Function :=
  [⟨0, ⟨[.Nil], [], [1]⟩, none⟩, ⟨0, ⟨[.Return], [], [1]⟩, none⟩]

/-- Mid-call state: the script frame (slot_offset 0) holds one
intermediate value `Bool true` below the callee value; the callee frame
has slot_offset 1 and is about to execute `Return` with `Nil` on top. -/
def returnBugState : VMState :=
  ⟨[⟨0, 0, 0⟩, ⟨1, 0, 1⟩], [.Bool true, .Function 1, .Nil], [],
   returnBugFns, emptyInterner, []⟩

/-- What `vmStep` actually produces on `returnBugState`: the stack is
truncated to the CALLER's slot_offset (0), wiping `Bool true`. -/
def returnBugState1 : VMState :=
  ⟨[⟨0, 1, 0⟩], [.Nil], [], returnBugFns, emptyInterner, []⟩

/-- A state whose value stack already holds `STACK_SIZE = 16384` values
and whose next instruction pushes one more. -/
def overflowState : VMState :=
  ⟨[⟨0, 0, 0⟩], List.replicate STACK_SIZE Value.Nil, [],
   [⟨0, ⟨[.Nil], [], [1]⟩, none⟩], emptyInterner, []⟩

/-- `overflowState` after the push: 16385 values, no error. -/
def overflowState1 : VMState :=
  ⟨[⟨0, 1, 0⟩], List.replicate STACK_SIZE Value.Nil ++ [Value.Nil], [],
   [⟨0, ⟨[.Nil], [], [1]⟩, none⟩], emptyInterner, []⟩

/-- `c` occupies positions `[i, i + c.length)` of `code`. -/
def codeWindow (code : List OpCode) (i : Nat) (c : List OpCode) : Prop :=
  ∀ k, k < c.length → code.get? (i + k) = c.get? k

/-- A state whose frame stack is full (64 frames) with a zero-arity
function 0 available to call. -/
def fullFramesState : VMState :=
  ⟨List.replicate 64 (⟨0, 0, 0⟩ : CallFrame), [.Function 0], [],
   [⟨0, ⟨[.Nil], [], [1]⟩, none⟩], emptyInterner, []⟩

/-- The script function of the statement `nil;` (code `Nil; Pop` plus the
script-end `Return`). -/
def exprStmtFn : Function := ⟨0, ⟨[.Nil, .Pop, .Return], [], [1, 1, 1]⟩, none⟩

/-- The VM about to execute the compiled statement `nil;`. -/
def exprStmtState : VMState := ⟨[⟨0, 0, 0⟩], [], [], [exprStmtFn], emptyInterner, []⟩

/-- About to execute `SetGlobal(0)` naming handle 7 while the globals
table is empty. -/
def sgAbsentState : VMState :=
  ⟨[⟨0, 0, 0⟩], [.Nil], [],
   [⟨0, ⟨[.SetGlobal 0], [.Identifier 7], [1]⟩, none⟩], emptyInterner, []⟩

/-- About to execute `DefineGlobal(0)` naming handle 7 with `Bool true`
on top of the stack. -/
def dgState : VMState :=
  ⟨[⟨0, 0, 0⟩], [.Bool true], [],
   [⟨0, ⟨[.DefineGlobal 0], [.Identifier 7], [1]⟩, none⟩], emptyInterner, []⟩

/-- About to execute `SetGlobal(0)` naming handle 7 after it has been
defined. -/
def sgPresentState : VMState :=
  ⟨[⟨0, 0, 0⟩], [.Bool false], [(7, .Nil)],
   [⟨0, ⟨[.SetGlobal 0], [.Identifier 7], [1]⟩, none⟩], emptyInterner, []⟩

theorem emptyInterner_wf : emptyInterner.Wf := by
  refine ⟨rfl, by simp [emptyInterner], ?_⟩
  intro s idx
  simp [lookupAssoc, emptyInterner]

theorem lookupAssoc_append (m₁ m₂ : List (String × Nat)) (k : String) :
    lookupAssoc (m₁ ++ m₂) k =
      ((lookupAssoc m₁ k).orElse fun _ => lookupAssoc m₂ k) := by
  unfold lookupAssoc
  rw [List.find?_append]
  cases List.find? (fun p => p.1 == k) m₁ <;> simp [Option.or]

theorem lookupAssoc_singleton (a : String) (v : Nat) (k : String) :
    lookupAssoc [(a, v)] k = if a = k then some v else none := by
  cases hb : (a == k) with
  | true =>
    have ha : a = k := by simpa using hb
    simp [lookupAssoc, List.find?, hb, ha]
  | false =>
    have ha : ¬a = k := by simpa using hb
    simp [lookupAssoc, List.find?, hb, ha]

theorem lookupAssoc_lt {i : Interner} (hwf : i.Wf) {s : String} {idx : Nat}
    (h : lookupAssoc i.map s = some idx) : idx < i.vec.length := by
  have := (hwf.2.2 s idx).1 h
  exact (List.get?_eq_some.mp this).1

/-- Claim C9 (confirmed): on any consistent interner state, interning
`a` and then `b` yields equal handles exactly when the two strings are
equal, and `lookup` returns the interned bytes of `a`. -/
theorem intern_functorial (i : Interner) (hwf : i.Wf) (a b : String) :
    ((i.intern a).1 = ((i.intern a).2.intern b).1 ↔ a = b) ∧
    (i.intern a).2.lookup (i.intern a).1 = a := by
  obtain ⟨hlen, hlt, hiff⟩ := hwf
  have hlen32 : i.map.length % 4294967296 = i.map.length :=
    Nat.mod_eq_of_lt (by rw [hlen]; exact hlt)
  cases ha : lookupAssoc i.map a with
  | some ia =>
    have hget : i.vec.get? ia = some a := (hiff a ia).1 ha
    have hia : ia < i.vec.length := (List.get?_eq_some.mp hget).1
    refine ⟨?_, ?_⟩
    · cases hb : lookupAssoc i.map b with
      | some ib =>
        have hgetb : i.vec.get? ib = some b := (hiff b ib).1 hb
        simp only [Interner.intern, ha, hb]
        constructor
        · intro h
          rw [h, hgetb] at hget
          exact (Option.some.inj hget).symm
        · intro h
          rw [h, hb] at ha
          exact (Option.some.inj ha).symm
      | none =>
        simp only [Interner.intern, ha, hb]
        constructor
        · intro h
          exfalso
          rw [hlen32] at h
          omega
        · intro h
          rw [h, hb] at ha
          exact absurd ha (by simp)
    · simp only [Interner.intern, ha, Interner.lookup]
      rw [List.getD_eq_getD_get? i.vec "" ia, hget]
      rfl
  | none =>
    refine ⟨?_, ?_⟩
    · simp only [Interner.intern, ha]
      cases hb : lookupAssoc i.map b with
      | some ib =>
        have hgetb : i.vec.get? ib = some b := (hiff b ib).1 hb
        have hib : ib < i.vec.length := (List.get?_eq_some.mp hgetb).1
        rw [lookupAssoc_append, hb]
        simp only [Option.orElse]
        constructor
        · intro h
          rw [hlen32] at h
          omega
        · intro h
          rw [h, hb] at ha
          exact absurd ha (by simp)
      | none =>
        rw [lookupAssoc_append, hb]
        by_cases hab : a = b
        · subst hab
          rw [lookupAssoc_singleton]
          simp
        · rw [lookupAssoc_singleton, if_neg hab]
          simp only [Option.orElse]
          constructor
          · intro h
            exfalso
            rw [List.length_append, List.length_cons, List.length_nil, hlen32] at h
            rcases Nat.lt_or_ge (i.map.length + 1) 4294967296 with hsm | hbig
            · rw [Nat.mod_eq_of_lt hsm] at h
              omega
            · have : i.map.length + 1 = 4294967296 := by
                have := hlen ▸ hlt
                omega
              rw [this, Nat.mod_self] at h
              omega
          · intro h
            exact absurd h hab
    · simp only [Interner.intern, ha, Interner.lookup]
      rw [List.getD_eq_getD_get?, hlen32, hlen, List.get?_concat_length]
      rfl

/-- Witness for C9 at a concrete state and strings. -/
theorem intern_functorial_witness :
    ((emptyInterner.intern "a").1 = ((emptyInterner.intern "a").2.intern "b").1 ↔
      "a" = "b") ∧
    (emptyInterner.intern "a").2.lookup (emptyInterner.intern "a").1 = "a" :=
  intern_functorial emptyInterner emptyInterner_wf "a" "b"

/-- Claim C10 (confirmed): `intern` and `intern_string` are the same
function of the interner state and the string contents — so the handle a
VM concatenation obtains through `intern_string` is the handle a
compiled string literal with the same bytes obtains through `intern`, as
the second conjunct states for the concatenation `a ++ b`. -/
theorem intern_string_eq_intern :
    (∀ (i : Interner) (s : String), i.intern_string s = i.intern s) ∧
    (∀ (i : Interner) (a b : String),
      ((i.intern_string (a ++ b)).2.intern (a ++ b)).1 = (i.intern_string (a ++ b)).1) := by
  constructor
  · intro i s
    rfl
  · intro i a b
    cases h : lookupAssoc i.map (a ++ b) with
    | some idx => simp only [Interner.intern_string, Interner.intern, h]
    | none =>
      simp only [Interner.intern_string, Interner.intern, h]
      rw [lookupAssoc_append, h, lookupAssoc_singleton, if_pos rfl]
      rfl

/-- Claim C5, counterexample: the source `values_equal` has no
`(Identifier, Identifier)` arm, so two `Identifier` values with the SAME
payload fall to the catch-all and compare unequal, contradicting the
claim that every listed same-variant pair compares by payload. -/
theorem values_equal_identifier_cex :
    values_equal (.Identifier 0) (.Identifier 0) = false := rfl

/-- Claim C5 (corrected): `values_equal` compares Numbers with the
epsilon tolerance and Bool / Nil / StringObj / Function structurally;
`Identifier` pairs always compare unequal (the claim wrongly listed
Identifier among the structural variants); cross-variant comparisons are
false. -/
theorem values_equal_cases :
    (∀ a b, values_equal (.Bool a) (.Bool b) = (a == b)) ∧
    values_equal .Nil .Nil = true ∧
    (∀ a b : ℚ, values_equal (.Number a) (.Number b) = decide (|a - b| < ERR_MARGIN)) ∧
    (∀ a b : Nat, values_equal (.StringObj a) (.StringObj b) = (a == b)) ∧
    (∀ a b : Nat, values_equal (.Function a) (.Function b) = (a == b)) ∧
    (∀ a b : Nat, values_equal (.Identifier a) (.Identifier b) = false) ∧
    (∀ v w : Value, v.tag ≠ w.tag → values_equal v w = false) := by
  refine ⟨fun a b => rfl, rfl, fun a b => rfl, fun a b => rfl, fun a b => rfl,
    fun a b => rfl, ?_⟩
  intro v w h
  cases v <;> cases w <;> first
    | rfl
    | exact absurd rfl h

/-- Witness for C5's amended theorem at a concrete cross-variant pair. -/
theorem values_equal_cases_witness :
    values_equal .Nil (.Bool true) = false :=
  values_equal_cases.2.2.2.2.2.2 .Nil (.Bool true) (by decide)

/-- Claim C1 (code bug, evaluation at the failing input): running the
compiled `print nil;`, the `Constant` instruction itself writes
`nil\n` to stdout, and the `Print` instruction then writes
`OpCode::Print: nil\n` — not the bare textual form the spec promises,
and not only from `Print`. -/
theorem constant_and_print_write_stdout :
    vmStep constNilState = .ok constNilState1 ∧
    constNilState1.output = ["nil\n"] ∧
    vmStep constNilState1 = .ok constNilState2 ∧
    constNilState2.output = ["nil\n", "OpCode::Print: nil\n"] :=
  ⟨rfl, rfl, rfl, rfl⟩

/-- Claim C2 (code bug, evaluation at the failing input): on the source
`//x\nb`, `scan_token` does not skip past the comment's terminating
newline (the `break` in `skip_whitespace` leaves the cursor on it), so
it returns an `Error` token "Unexpected character." at line 1 instead of
the `Identifier` token `b` at line 2. -/
theorem comment_newline_error_token :
    ((Scanner.mk0 "//x\nb".toList).scan_token).1 =
      ⟨.Error, 1, "Unexpected character.".toList⟩ := by decide

/-- Claim C3 (code bug, evaluation at the failing inputs): the keyword
trie's second `b'f'` arm — the one holding `this` and `true` — is dead,
and no arm tests `b't'`, so the lexemes `true` and `this` classify as
`Identifier` rather than `True` / `This`, while the other keywords (here
`var` and `false` as samples) classify correctly. -/
theorem keyword_trie_true_this_identifier :
    ({ Scanner.mk0 "true".toList with current := 4 } : Scanner).identifier_type =
      .Identifier ∧
    ({ Scanner.mk0 "this".toList with current := 4 } : Scanner).identifier_type =
      .Identifier ∧
    ({ Scanner.mk0 "var".toList with current := 3 } : Scanner).identifier_type = .Var ∧
    ({ Scanner.mk0 "false".toList with current := 5 } : Scanner).identifier_type =
      .False := by
  refine ⟨by decide, by decide, by decide, by decide⟩

/-- Claim C4 (code bug, evaluation at the failing input): executing
`Return` in a callee whose frame has slot_offset 1 while the caller's
frame has slot_offset 0, the code truncates the stack to the CALLER's
slot_offset (`self.frames.last()` AFTER the pop), wiping the caller's
intermediate value `Bool true`; the claim (truncate to the popped
frame's slot_offset) would leave `[Bool true, Nil]`. -/
theorem return_truncates_to_caller_offset :
    vmStep returnBugState = .ok returnBugState1 ∧
    returnBugState1.stack = [.Nil] ∧
    returnBugState1.stack ≠ [.Bool true, .Nil] :=
  ⟨rfl, rfl, by decide⟩

theorem vmStep_eq {σ : VMState} {frB : List CallFrame} {fr : CallFrame}
    {fn : Function} {op : OpCode}
    (hfr : σ.frames = frB ++ [fr])
    (hfn : σ.functions.get? fr.f_idx = some fn)
    (hop : fn.chunk.code.get? fr.ip = some op) :
    vmStep σ = execOp σ fr fn op := by
  unfold vmStep
  rw [hfr, List.getLast?_concat]
  simp only [hfn, hop]

theorem globalsGet_insert (g : List (Nat × Value)) (k : Nat) (v : Value) :
    globalsGet (globalsInsert g k v) k = some v := by
  induction g with
  | nil => simp [globalsGet, globalsInsert, List.find?]
  | cons p rest ih =>
    cases hb : (p.1 == k) with
    | true => simp [globalsGet, globalsInsert, hb, List.find?]
    | false => simp [globalsGet, globalsInsert, hb, List.find?] at ih ⊢; exact ih

/-- Claim C7 (confirmed).  First conjunct: `SetGlobal` naming an absent
global is a runtime error (which halts the interpreter).  Second:
`DefineGlobal` binds the name to peek(0) and pops.  Third: once the name
is present, `SetGlobal` succeeds, writes peek(0) into the globals table,
and leaves the stack exactly as it was. -/
theorem set_global_semantics :
    (∀ (σ : VMState) (frB : List CallFrame) (fr : CallFrame) (fn : Function)
        (idx name : Nat),
      σ.frames = frB ++ [fr] →
      σ.functions.get? fr.f_idx = some fn →
      fn.chunk.code.get? fr.ip = some (.SetGlobal idx) →
      fn.chunk.constants.get? idx = some (.Identifier name) →
      globalsGet σ.globals name = none →
      vmStep σ = .err σ ("Cannot assign to undefined variable " ++ toString name ++ ".")) ∧
    (∀ (σ : VMState) (frB : List CallFrame) (fr : CallFrame) (fn : Function)
        (idx name : Nat) (v : Value),
      σ.frames = frB ++ [fr] →
      σ.functions.get? fr.f_idx = some fn →
      fn.chunk.code.get? fr.ip = some (.DefineGlobal idx) →
      fn.chunk.constants.get? idx = some (.Identifier name) →
      peekStack σ.stack 0 = some v →
      vmStep σ = .ok { σ with globals := globalsInsert σ.globals name v,
                              stack := σ.stack.dropLast, frames := bumpIp σ.frames } ∧
      globalsGet (globalsInsert σ.globals name v) name = some v) ∧
    (∀ (σ : VMState) (frB : List CallFrame) (fr : CallFrame) (fn : Function)
        (idx name : Nat) (v : Value),
      σ.frames = frB ++ [fr] →
      σ.functions.get? fr.f_idx = some fn →
      fn.chunk.code.get? fr.ip = some (.SetGlobal idx) →
      fn.chunk.constants.get? idx = some (.Identifier name) →
      (globalsGet σ.globals name).isSome →
      peekStack σ.stack 0 = some v →
      vmStep σ = .ok { σ with globals := globalsInsert σ.globals name v,
                              frames := bumpIp σ.frames } ∧
      ({ σ with globals := globalsInsert σ.globals name v,
                frames := bumpIp σ.frames } : VMState).stack = σ.stack ∧
      globalsGet (globalsInsert σ.globals name v) name = some v) := by
  refine ⟨?_, ?_, ?_⟩
  · intro σ frB fr fn idx name hfr hfn hop hconst habs
    rw [vmStep_eq hfr hfn hop]
    simp only [execOp]
    rw [hconst]
    simp only [habs, Option.isSome_none, Bool.false_eq_true, if_false]
  · intro σ frB fr fn idx name v hfr hfn hop hconst hpeek
    refine ⟨?_, globalsGet_insert _ _ _⟩
    rw [vmStep_eq hfr hfn hop]
    simp only [execOp]
    rw [hconst, hpeek]
  · intro σ frB fr fn idx name v hfr hfn hop hconst hpres hpeek
    refine ⟨?_, rfl, globalsGet_insert _ _ _⟩
    rw [vmStep_eq hfr hfn hop]
    simp only [execOp]
    rw [hconst]
    simp only [hpres, if_true, hpeek]

/-- Witness for C7 at concrete states: setting the undefined handle 7
errors; defining then setting succeeds without touching the stack. -/
theorem set_global_semantics_witness :
    vmStep sgAbsentState =
      .err sgAbsentState ("Cannot assign to undefined variable " ++ toString 7 ++ ".") ∧
    vmStep dgState =
      .ok { dgState with globals := globalsInsert dgState.globals 7 (.Bool true),
                         stack := dgState.stack.dropLast, frames := bumpIp dgState.frames } ∧
    vmStep sgPresentState =
      .ok { sgPresentState with
              globals := globalsInsert sgPresentState.globals 7 (.Bool false),
              frames := bumpIp sgPresentState.frames } ∧
    ({ sgPresentState with
         globals := globalsInsert sgPresentState.globals 7 (.Bool false),
         frames := bumpIp sgPresentState.frames } : VMState).stack = sgPresentState.stack :=
  ⟨set_global_semantics.1 sgAbsentState [] ⟨0, 0, 0⟩ _ 0 7 rfl rfl rfl rfl rfl,
   (set_global_semantics.2.1 dgState [] ⟨0, 0, 0⟩ _ 0 7 (.Bool true)
      rfl rfl rfl rfl rfl).1,
   (set_global_semantics.2.2 sgPresentState [] ⟨0, 0, 0⟩ _ 0 7 (.Bool false)
      rfl rfl rfl rfl rfl rfl).1,
   (set_global_semantics.2.2 sgPresentState [] ⟨0, 0, 0⟩ _ 0 7 (.Bool false)
      rfl rfl rfl rfl rfl rfl).2.1⟩

/-- Claim C6, counterexample: a push executed on a stack already holding
`STACK_SIZE = 16384` values succeeds and grows the stack to 16385 — the
VM never checks the value stack against `STACK_SIZE`, so an execution
that exceeds that maximum does NOT halt with a runtime error. -/
theorem value_stack_grows_past_limit :
    vmStep overflowState = .ok overflowState1 ∧
    overflowState1.stack.length = STACK_SIZE + 1 := by
  constructor
  · rfl
  · simp [overflowState1]

/-- Claim C6 (corrected): the FRAME stack maximum (64 frames) is
enforced — a call attempted with `frames.len() == FRAMES_MAX` raises the
runtime error "Stack overflow." — but the VALUE stack has no enforced
maximum: a push succeeds whatever the current stack size (second
conjunct, with no bound on `σ.stack.length`), `STACK_SIZE` being only
the initial capacity of the growable `Vec`. -/
theorem stack_limits :
    (∀ (σ : VMState) (f_idx arg_count : Nat) (fn : Function),
      σ.functions.get? f_idx = some fn →
      arg_count = fn.arity →
      σ.frames.length = FRAMES_MAX →
      callFn σ f_idx arg_count = .err σ "Stack overflow.") ∧
    (∀ (σ : VMState) (frB : List CallFrame) (fr : CallFrame) (fn : Function),
      σ.frames = frB ++ [fr] →
      σ.functions.get? fr.f_idx = some fn →
      fn.chunk.code.get? fr.ip = some .Nil →
      vmStep σ = .ok { σ with stack := σ.stack ++ [Value.Nil],
                              frames := bumpIp σ.frames } ∧
      (σ.stack ++ [Value.Nil]).length = σ.stack.length + 1) := by
  constructor
  · intro σ f_idx arg_count fn hfn harg hframes
    unfold callFn
    rw [hfn]
    simp only [harg, ne_eq, not_true_eq_false, if_false, hframes, if_pos rfl, if_true]
  · intro σ frB fr fn hfr hfn hop
    refine ⟨?_, by simp⟩
    rw [vmStep_eq hfr hfn hop]
    simp only [execOp]

/-- Witness for C6's amended theorem: a call on a full frame stack
errors, and a push on the 16384-deep `overflowState` succeeds. -/
theorem stack_limits_witness :
    callFn fullFramesState 0 0 = .err fullFramesState "Stack overflow." ∧
    vmStep overflowState =
      .ok { overflowState with stack := overflowState.stack ++ [Value.Nil],
                               frames := bumpIp overflowState.frames } :=
  ⟨stack_limits.1 fullFramesState 0 0 _ rfl rfl (by decide),
   (stack_limits.2 overflowState [] ⟨0, 0, 0⟩ _ rfl rfl rfl).1⟩

theorem runFuel_one (σ : VMState) : runFuel 1 σ = vmStep σ := by
  unfold runFuel
  cases vmStep σ <;> rfl

theorem runFuel_add (a b : Nat) (σ : VMState) :
    runFuel (a + b) σ =
      (match runFuel a σ with
       | .ok σ1 => runFuel b σ1
       | r => r) := by
  induction a generalizing σ with
  | zero => simp [runFuel]
  | succ a ih =>
    rw [show a + 1 + b = (a + b) + 1 from by omega]
    simp only [runFuel]
    cases h : vmStep σ with
    | ok σ1 => simpa using ih σ1
    | halt σ1 => simp
    | err σ1 m => simp
    | crash m => simp

theorem codeWindow_append (c1 c2 : List OpCode) {code : List OpCode} {i : Nat}
    (h : codeWindow code i (c1 ++ c2)) :
    codeWindow code i c1 ∧ codeWindow code (i + c1.length) c2 := by
  constructor
  · intro k hk
    have hx := h k (by simp only [List.length_append]; omega)
    rwa [List.get?_append hk] at hx
  · intro k hk
    have hx := h (c1.length + k) (by simp only [List.length_append]; omega)
    rw [List.get?_append_right (by omega)] at hx
    rw [show c1.length + k - c1.length = k from by omega] at hx
    rw [show i + c1.length + k = i + (c1.length + k) from by omega]
    exact hx

theorem codeWindow_at {code : List OpCode} {i : Nat} {c : List OpCode}
    (h : codeWindow code i c) {k : Nat} {op : OpCode} (hk : c.get? k = some op) :
    code.get? (i + k) = some op := by
  have hlt : k < c.length := (List.get?_eq_some.mp hk).1
  rw [h k hlt]
  exact hk

theorem bumpIp_concat (frB : List CallFrame) (fr : CallFrame) :
    bumpIp (frB ++ [fr]) = frB ++ [{ fr with ip := fr.ip + 1 }] := by
  unfold bumpIp
  rw [List.dropLast_concat, List.getLast?_concat]

theorem setIp_concat (frB : List CallFrame) (fr : CallFrame) (v : Nat) :
    setIp (frB ++ [fr]) v = frB ++ [{ fr with ip := v }] := by
  unfold setIp
  rw [List.dropLast_concat, List.getLast?_concat]

theorem popStack_of_length (st : List Value) (h : 0 < st.length) :
    ∃ v st1, popStack st = some (v, st1) ∧ st1.length + 1 = st.length := by
  obtain ⟨v, hv⟩ : ∃ v, st.getLast? = some v := by
    cases hgl : st.getLast? with
    | some v => exact ⟨v, rfl⟩
    | none =>
      rw [List.getLast?_eq_none_iff] at hgl
      subst hgl
      simp at h
  refine ⟨v, st.dropLast, by simp [popStack, hv], ?_⟩
  simp only [List.length_dropLast]
  omega

theorem peekStack_zero (st : List Value) (h : 0 < st.length) :
    ∃ v, peekStack st 0 = some v := by
  unfold peekStack
  rw [if_pos (by omega)]
  have hlt : st.length - 1 - 0 < st.length := by omega
  exact ⟨st.get ⟨_, hlt⟩, List.get?_eq_get hlt⟩

theorem peekStack_one (st : List Value) (h : 2 ≤ st.length) :
    ∃ v, peekStack st 1 = some v := by
  unfold peekStack
  rw [if_pos (by omega)]
  have hlt : st.length - 1 - 1 < st.length := by omega
  exact ⟨st.get ⟨_, hlt⟩, List.get?_eq_get hlt⟩

theorem makeConstant_eq {pool : List Value} {v : Value} {i : Nat} {p : List Value}
    (h : makeConstant pool v = some (i, p)) : i = pool.length ∧ p = pool ++ [v] := by
  unfold makeConstant at h
  by_cases hl : pool.length ≤ 255
  · rw [if_pos hl] at h
    have := Option.some.inj h
    exact ⟨(Prod.mk.injEq _ _ _ _ ▸ this).1.symm, (Prod.mk.injEq _ _ _ _ ▸ this).2.symm⟩
  · rw [if_neg hl] at h
    cases h

theorem compileExpr_pool_extends :
    ∀ (e : Expr) {pool : List Value} {c : List OpCode} {p2 : List Value},
      compileExpr e pool = some (c, p2) → pool <+: p2 := by
  intro e
  induction e with
  | num n =>
    intro pool c p2 h
    cases hm : makeConstant pool (.Number n) with
    | none => simp [compileExpr, hm] at h
    | some ip =>
      obtain ⟨i, p⟩ := ip
      simp only [compileExpr, hm, Option.bind_eq_bind, Option.some_bind, Option.pure_def] at h
      obtain ⟨-, hp⟩ := makeConstant_eq hm
      cases h
      exact hp ▸ ⟨[.Number n], rfl⟩
  | str hₛ =>
    intro pool c p2 h
    cases hm : makeConstant pool (.StringObj hₛ) with
    | none => simp [compileExpr, hm] at h
    | some ip =>
      obtain ⟨i, p⟩ := ip
      simp only [compileExpr, hm, Option.bind_eq_bind, Option.some_bind, Option.pure_def] at h
      obtain ⟨-, hp⟩ := makeConstant_eq hm
      cases h
      exact hp ▸ ⟨[.StringObj hₛ], rfl⟩
  | litTrue =>
    intro pool c p2 h
    cases h
    exact List.prefix_refl _
  | litFalse =>
    intro pool c p2 h
    cases h
    exact List.prefix_refl _
  | litNil =>
    intro pool c p2 h
    cases h
    exact List.prefix_refl _
  | getLocal i =>
    intro pool c p2 h
    cases h
    exact List.prefix_refl _
  | setLocal i rhs ih =>
    intro pool c p2 h
    cases hr : compileExpr rhs pool with
    | none => simp [compileExpr, hr] at h
    | some cp =>
      obtain ⟨cr, p⟩ := cp
      simp only [compileExpr, hr, Option.bind_eq_bind, Option.some_bind, Option.pure_def] at h
      cases h
      exact ih hr
  | getGlobal hₛ =>
    intro pool c p2 h
    cases hm : makeConstant pool (.Identifier hₛ) with
    | none => simp [compileExpr, hm] at h
    | some ip =>
      obtain ⟨i, p⟩ := ip
      simp only [compileExpr, hm, Option.bind_eq_bind, Option.some_bind, Option.pure_def] at h
      obtain ⟨-, hp⟩ := makeConstant_eq hm
      cases h
      exact hp ▸ ⟨[.Identifier hₛ], rfl⟩
  | setGlobal hₛ rhs ih =>
    intro pool c p2 h
    cases hm : makeConstant pool (.Identifier hₛ) with
    | none => simp [compileExpr, hm] at h
    | some ip =>
      obtain ⟨i, p1⟩ := ip
      simp only [compileExpr, hm, Option.bind_eq_bind, Option.some_bind, Option.pure_def] at h
      cases hr : compileExpr rhs p1 with
      | none => rw [hr] at h; simp only [Option.none_bind] at h; cases h
      | some cp =>
        obtain ⟨cr, p⟩ := cp
        rw [hr] at h
        simp only [Option.bind_eq_bind, Option.some_bind, Option.pure_def] at h
        cases h
        obtain ⟨-, hp⟩ := makeConstant_eq hm
        exact (hp ▸ ⟨[.Identifier hₛ], rfl⟩ : pool <+: p1).trans (ih hr)
  | unaryNot e ih =>
    intro pool c p2 h
    cases hr : compileExpr e pool with
    | none => simp [compileExpr, hr] at h
    | some cp =>
      obtain ⟨ce, p⟩ := cp
      simp only [compileExpr, hr, Option.bind_eq_bind, Option.some_bind, Option.pure_def] at h
      cases h
      exact ih hr
  | unaryNeg e ih =>
    intro pool c p2 h
    cases hr : compileExpr e pool with
    | none => simp [compileExpr, hr] at h
    | some cp =>
      obtain ⟨ce, p⟩ := cp
      simp only [compileExpr, hr, Option.bind_eq_bind, Option.some_bind, Option.pure_def] at h
      cases h
      exact ih hr
  | bin op lhs rhs ihl ihr =>
    intro pool c p2 h
    cases hl : compileExpr lhs pool with
    | none => simp [compileExpr, hl] at h
    | some cp =>
      obtain ⟨cl, p1⟩ := cp
      simp only [compileExpr, hl, Option.bind_eq_bind, Option.some_bind, Option.pure_def] at h
      cases hr : compileExpr rhs p1 with
      | none => rw [hr] at h; simp only [Option.none_bind] at h; cases h
      | some cp2 =>
        obtain ⟨cr, p⟩ := cp2
        rw [hr] at h
        simp only [Option.bind_eq_bind, Option.some_bind, Option.pure_def] at h
        cases h
        exact (ihl hl).trans (ihr hr)
  | land lhs rhs ihl ihr =>
    intro pool c p2 h
    cases hl : compileExpr lhs pool with
    | none => simp [compileExpr, hl] at h
    | some cp =>
      obtain ⟨cl, p1⟩ := cp
      simp only [compileExpr, hl, Option.bind_eq_bind, Option.some_bind, Option.pure_def] at h
      cases hr : compileExpr rhs p1 with
      | none => rw [hr] at h; simp only [Option.none_bind] at h; cases h
      | some cp2 =>
        obtain ⟨cr, p⟩ := cp2
        rw [hr] at h
        simp only [Option.bind_eq_bind, Option.some_bind, Option.pure_def] at h
        cases h
        exact (ihl hl).trans (ihr hr)
  | lor lhs rhs ihl ihr =>
    intro pool c p2 h
    cases hl : compileExpr lhs pool with
    | none => simp [compileExpr, hl] at h
    | some cp =>
      obtain ⟨cl, p1⟩ := cp
      simp only [compileExpr, hl, Option.bind_eq_bind, Option.some_bind, Option.pure_def] at h
      cases hr : compileExpr rhs p1 with
      | none => rw [hr] at h; simp only [Option.none_bind] at h; cases h
      | some cp2 =>
        obtain ⟨cr, p⟩ := cp2
        rw [hr] at h
        simp only [Option.bind_eq_bind, Option.some_bind, Option.pure_def] at h
        cases h
        exact (ihl hl).trans (ihr hr)

theorem runFuel_extend {k1 : Nat} {σ σ1 : VMState} (h : runFuel k1 σ = .ok σ1)
    (k2 : Nat) : runFuel (k1 + k2) σ = runFuel k2 σ1 := by
  rw [runFuel_add, h]

theorem binary_op_cases (σ : VMState) (f : ℚ → ℚ → Value) (h2 : 2 ≤ σ.stack.length) :
    (∃ σe m, binary_op σ f = .err σe m) ∨
    (∃ σ2, binary_op σ f = .ok σ2 ∧ σ2.frames = bumpIp σ.frames ∧
      σ2.functions = σ.functions ∧ σ2.stack.length + 1 = σ.stack.length) := by
  obtain ⟨b, st1, hpop1, hlen1⟩ :=
    popStack_of_length σ.stack (by omega)
  obtain ⟨a, st2, hpop2, hlen2⟩ := popStack_of_length st1 (by omega)
  simp only [binary_op, hpop1, hpop2]
  cases a <;> cases b <;>
    first
      | (left; exact ⟨_, _, rfl⟩)
      | (right
         refine ⟨_, rfl, rfl, rfl, ?_⟩
         simp only [List.length_append, List.length_cons, List.length_nil]
         omega)

theorem concatenate_cases (σ : VMState) (h2 : 2 ≤ σ.stack.length) :
    (∃ σe m, concatenate σ = .err σe m) ∨
    (∃ σ2, concatenate σ = .ok σ2 ∧ σ2.frames = bumpIp σ.frames ∧
      σ2.functions = σ.functions ∧ σ2.stack.length + 1 = σ.stack.length) := by
  obtain ⟨b, st1, hpop1, hlen1⟩ :=
    popStack_of_length σ.stack (by omega)
  obtain ⟨a, st2, hpop2, hlen2⟩ := popStack_of_length st1 (by omega)
  simp only [concatenate, hpop1, hpop2]
  cases b <;> cases a <;>
    first
      | (left; exact ⟨_, _, rfl⟩)
      | (right
         refine ⟨_, rfl, rfl, rfl, ?_⟩
         simp only [List.length_append, List.length_cons, List.length_nil]
         omega)

theorem step_add {σ : VMState} {frB : List CallFrame} {fr : CallFrame} {fn : Function}
    (hfr : σ.frames = frB ++ [fr]) (hfn : σ.functions.get? fr.f_idx = some fn)
    (hop : fn.chunk.code.get? fr.ip = some .Add) (h2 : 2 ≤ σ.stack.length) :
    (∃ σe m, vmStep σ = .err σe m) ∨
    (∃ σ2, vmStep σ = .ok σ2 ∧ σ2.frames = bumpIp σ.frames ∧
      σ2.functions = σ.functions ∧ σ2.stack.length + 1 = σ.stack.length) := by
  obtain ⟨v0, hp0⟩ := peekStack_zero σ.stack (by omega)
  obtain ⟨v1, hp1⟩ := peekStack_one σ.stack h2
  rw [vmStep_eq hfr hfn hop]
  simp only [execOp, hp0, hp1]
  cases v0 <;> cases v1 <;>
    first
      | (exact binary_op_cases σ _ h2)
      | (exact concatenate_cases σ h2)
      | (left; exact ⟨_, _, rfl⟩)

theorem step_equal {σ : VMState} {frB : List CallFrame} {fr : CallFrame} {fn : Function}
    (hfr : σ.frames = frB ++ [fr]) (hfn : σ.functions.get? fr.f_idx = some fn)
    (hop : fn.chunk.code.get? fr.ip = some .Equal) (h2 : 2 ≤ σ.stack.length) :
    ∃ σ2, vmStep σ = .ok σ2 ∧ σ2.frames = bumpIp σ.frames ∧
      σ2.functions = σ.functions ∧ σ2.stack.length + 1 = σ.stack.length := by
  obtain ⟨b, st1, hpop1, hlen1⟩ :=
    popStack_of_length σ.stack (by omega)
  obtain ⟨a, st2, hpop2, hlen2⟩ := popStack_of_length st1 (by omega)
  rw [vmStep_eq hfr hfn hop]
  simp only [execOp, hpop1, hpop2]
  refine ⟨_, rfl, rfl, rfl, ?_⟩
  simp only [List.length_append, List.length_cons, List.length_nil]
  omega

theorem step_not {σ : VMState} {frB : List CallFrame} {fr : CallFrame} {fn : Function}
    (hfr : σ.frames = frB ++ [fr]) (hfn : σ.functions.get? fr.f_idx = some fn)
    (hop : fn.chunk.code.get? fr.ip = some .Not) (h1 : 0 < σ.stack.length) :
    ∃ σ2, vmStep σ = .ok σ2 ∧ σ2.frames = bumpIp σ.frames ∧
      σ2.functions = σ.functions ∧ σ2.stack.length = σ.stack.length := by
  obtain ⟨v, st1, hpop, hlen⟩ := popStack_of_length σ.stack h1
  rw [vmStep_eq hfr hfn hop]
  simp only [execOp, hpop]
  refine ⟨_, rfl, rfl, rfl, ?_⟩
  simp only [List.length_append, List.length_cons, List.length_nil]
  omega

theorem step_negate {σ : VMState} {frB : List CallFrame} {fr : CallFrame} {fn : Function}
    (hfr : σ.frames = frB ++ [fr]) (hfn : σ.functions.get? fr.f_idx = some fn)
    (hop : fn.chunk.code.get? fr.ip = some .Negate) (h1 : 0 < σ.stack.length) :
    (∃ σe m, vmStep σ = .err σe m) ∨
    (∃ σ2, vmStep σ = .ok σ2 ∧ σ2.frames = bumpIp σ.frames ∧
      σ2.functions = σ.functions ∧ σ2.stack.length = σ.stack.length) := by
  obtain ⟨v, hp⟩ := peekStack_zero σ.stack h1
  rw [vmStep_eq hfr hfn hop]
  simp only [execOp]
  rw [hp]
  cases v <;>
    first
      | (left; exact ⟨_, _, rfl⟩)
      | (right
         refine ⟨_, rfl, rfl, rfl, ?_⟩
         simp only [List.length_append, List.length_cons, List.length_nil,
           List.length_dropLast]
         omega)

theorem step_pop {σ : VMState} {frB : List CallFrame} {fr : CallFrame} {fn : Function}
    (hfr : σ.frames = frB ++ [fr]) (hfn : σ.functions.get? fr.f_idx = some fn)
    (hop : fn.chunk.code.get? fr.ip = some .Pop) :
    ∃ σ2, vmStep σ = .ok σ2 ∧ σ2.frames = bumpIp σ.frames ∧
      σ2.functions = σ.functions ∧ σ2.stack = σ.stack.dropLast := by
  rw [vmStep_eq hfr hfn hop]
  exact ⟨_, rfl, rfl, rfl, rfl⟩

theorem step_jump {σ : VMState} {frB : List CallFrame} {fr : CallFrame} {fn : Function}
    {d : Nat}
    (hfr : σ.frames = frB ++ [fr]) (hfn : σ.functions.get? fr.f_idx = some fn)
    (hop : fn.chunk.code.get? fr.ip = some (.Jump d)) :
    ∃ σ2, vmStep σ = .ok σ2 ∧ σ2.frames = setIp σ.frames (fr.ip + d + 1) ∧
      σ2.functions = σ.functions ∧ σ2.stack = σ.stack := by
  rw [vmStep_eq hfr hfn hop]
  exact ⟨_, rfl, rfl, rfl, rfl⟩

theorem step_jumpIfFalse {σ : VMState} {frB : List CallFrame} {fr : CallFrame}
    {fn : Function} {d : Nat}
    (hfr : σ.frames = frB ++ [fr]) (hfn : σ.functions.get? fr.f_idx = some fn)
    (hop : fn.chunk.code.get? fr.ip = some (.JumpIfFalse d)) (h1 : 0 < σ.stack.length) :
    (∃ σ2, vmStep σ = .ok σ2 ∧ σ2.frames = setIp σ.frames (fr.ip + d + 1) ∧
      σ2.functions = σ.functions ∧ σ2.stack = σ.stack) ∨
    (∃ σ2, vmStep σ = .ok σ2 ∧ σ2.frames = bumpIp σ.frames ∧
      σ2.functions = σ.functions ∧ σ2.stack = σ.stack) := by
  obtain ⟨v, hp⟩ := peekStack_zero σ.stack h1
  rw [vmStep_eq hfr hfn hop]
  simp only [execOp, hp]
  cases hf : is_falsey v
  · right
    refine ⟨{ σ with frames := bumpIp σ.frames }, ?_, rfl, rfl, rfl⟩
    simp
  · left
    refine ⟨{ σ with frames := setIp σ.frames (fr.ip + d + 1) }, ?_, rfl, rfl, rfl⟩
    simp

theorem step_getLocal {σ : VMState} {frB : List CallFrame} {fr : CallFrame}
    {fn : Function} {i : Nat}
    (hfr : σ.frames = frB ++ [fr]) (hfn : σ.functions.get? fr.f_idx = some fn)
    (hop : fn.chunk.code.get? fr.ip = some (.GetLocal i)) :
    (∃ m, vmStep σ = .crash m) ∨
    (∃ σ2, vmStep σ = .ok σ2 ∧ σ2.frames = bumpIp σ.frames ∧
      σ2.functions = σ.functions ∧ σ2.stack.length = σ.stack.length + 1) := by
  rw [vmStep_eq hfr hfn hop]
  simp only [execOp]
  cases hg : σ.stack.get? (fr.slot_offset + i) with
  | none => exact Or.inl ⟨_, rfl⟩
  | some v => exact Or.inr ⟨_, rfl, rfl, rfl, by simp⟩

theorem step_setLocal {σ : VMState} {frB : List CallFrame} {fr : CallFrame}
    {fn : Function} {i : Nat}
    (hfr : σ.frames = frB ++ [fr]) (hfn : σ.functions.get? fr.f_idx = some fn)
    (hop : fn.chunk.code.get? fr.ip = some (.SetLocal i)) (h1 : 0 < σ.stack.length) :
    (∃ m, vmStep σ = .crash m) ∨
    (∃ σ2, vmStep σ = .ok σ2 ∧ σ2.frames = bumpIp σ.frames ∧
      σ2.functions = σ.functions ∧ σ2.stack.length = σ.stack.length) := by
  obtain ⟨v, hp⟩ := peekStack_zero σ.stack h1
  rw [vmStep_eq hfr hfn hop]
  simp only [execOp, hp]
  by_cases hlt : fr.slot_offset + i < σ.stack.length
  · rw [if_pos hlt]
    exact Or.inr ⟨_, rfl, rfl, rfl, by simp⟩
  · rw [if_neg hlt]
    exact Or.inl ⟨_, rfl⟩

theorem step_getGlobal {σ : VMState} {frB : List CallFrame} {fr : CallFrame}
    {fn : Function} {idx name : Nat}
    (hfr : σ.frames = frB ++ [fr]) (hfn : σ.functions.get? fr.f_idx = some fn)
    (hop : fn.chunk.code.get? fr.ip = some (.GetGlobal idx))
    (hconst : fn.chunk.constants.get? idx = some (.Identifier name)) :
    (∃ σe m, vmStep σ = .err σe m) ∨
    (∃ σ2, vmStep σ = .ok σ2 ∧ σ2.frames = bumpIp σ.frames ∧
      σ2.functions = σ.functions ∧ σ2.stack.length = σ.stack.length + 1) := by
  rw [vmStep_eq hfr hfn hop]
  simp only [execOp, hconst]
  cases hg : globalsGet σ.globals name with
  | none => exact Or.inl ⟨_, _, rfl⟩
  | some v => exact Or.inr ⟨_, rfl, rfl, rfl, by simp⟩

theorem step_setGlobal {σ : VMState} {frB : List CallFrame} {fr : CallFrame}
    {fn : Function} {idx name : Nat}
    (hfr : σ.frames = frB ++ [fr]) (hfn : σ.functions.get? fr.f_idx = some fn)
    (hop : fn.chunk.code.get? fr.ip = some (.SetGlobal idx))
    (hconst : fn.chunk.constants.get? idx = some (.Identifier name))
    (h1 : 0 < σ.stack.length) :
    (∃ σe m, vmStep σ = .err σe m) ∨
    (∃ σ2, vmStep σ = .ok σ2 ∧ σ2.frames = bumpIp σ.frames ∧
      σ2.functions = σ.functions ∧ σ2.stack.length = σ.stack.length) := by
  obtain ⟨v, hp⟩ := peekStack_zero σ.stack h1
  rw [vmStep_eq hfr hfn hop]
  simp only [execOp, hconst]
  cases hg : (globalsGet σ.globals name).isSome
  · rw [if_neg (by simp)]
    exact Or.inl ⟨_, _, rfl⟩
  · rw [if_pos rfl]
    simp only [hp]
    exact Or.inr ⟨_, rfl, rfl, rfl, rfl⟩

theorem step_constant {σ : VMState} {frB : List CallFrame} {fr : CallFrame}
    {fn : Function} {idx : Nat} {v : Value}
    (hfr : σ.frames = frB ++ [fr]) (hfn : σ.functions.get? fr.f_idx = some fn)
    (hop : fn.chunk.code.get? fr.ip = some (.Constant idx))
    (hconst : fn.chunk.constants.get? idx = some v) :
    ∃ σ2, vmStep σ = .ok σ2 ∧ σ2.frames = bumpIp σ.frames ∧
      σ2.functions = σ.functions ∧ σ2.stack.length = σ.stack.length + 1 := by
  rw [vmStep_eq hfr hfn hop]
  simp only [execOp, hconst]
  exact ⟨_, rfl, rfl, rfl, by simp⟩

theorem window_head {code : List OpCode} {i : Nat} {op : OpCode} {rest : List OpCode}
    (h : codeWindow code i (op :: rest)) :
    code.get? i = some op ∧ codeWindow code (i + 1) rest := by
  have h2 := codeWindow_append [op] rest h
  refine ⟨?_, by simpa using h2.2⟩
  have := codeWindow_at h (k := 0) rfl
  simpa using this

theorem window_single {code : List OpCode} {j : Nat} {op : OpCode}
    (h : codeWindow code j [op]) : code.get? j = some op := by
  have := codeWindow_at h (k := 0) rfl
  simpa using this

theorem constants_at {pool : List Value} {v : Value} {i : Nat} {p consts : List Value}
    (hm : makeConstant pool v = some (i, p)) (hpre : p <+: consts) :
    consts.get? i = some v := by
  obtain ⟨hi, hp⟩ := makeConstant_eq hm
  obtain ⟨t, ht⟩ := hpre
  subst hi
  rw [← ht, hp, List.append_assoc, List.get?_append_right (Nat.le_refl _)]
  simp

theorem frames_ip_eq (frB : List CallFrame) (fr : CallFrame) (x y : Nat) (h : x = y) :
    frB ++ [{ fr with ip := x }] = frB ++ [{ fr with ip := y }] := by rw [h]

/-- Running the code emitted for an expression: from any state whose
innermost frame sits at the start of the compiled block (with the
compiled constants present in the chunk's pool), the VM either raises a
runtime error, panics, or reaches the end of the block having pushed
exactly one value — the frame below, the frame layout, and the functions
list untouched. -/
theorem compileExpr_run (e : Expr) :
    ∀ (pool pool2 : List Value) (c : List OpCode) (σ : VMState)
      (frB : List CallFrame) (fr : CallFrame) (fn : Function),
      compileExpr e pool = some (c, pool2) →
      σ.frames = frB ++ [fr] →
      σ.functions.get? fr.f_idx = some fn →
      codeWindow fn.chunk.code fr.ip c →
      pool2 <+: fn.chunk.constants →
      (∃ k σe m, runFuel k σ = .err σe m) ∨
      (∃ k m, runFuel k σ = .crash m) ∨
      (∃ k σ2, runFuel k σ = .ok σ2 ∧
        σ2.frames = frB ++ [{ fr with ip := fr.ip + c.length }] ∧
        σ2.functions = σ.functions ∧
        σ2.stack.length = σ.stack.length + 1) := by
  induction e with
  | num n =>
    intro pool pool2 c σ frB fr fn hc hfr hfn hw hpre
    cases hm : makeConstant pool (.Number n) with
    | none => simp [compileExpr, hm] at hc
    | some ip =>
      obtain ⟨i, p⟩ := ip
      simp only [compileExpr, hm, Option.bind_eq_bind, Option.some_bind,
        Option.pure_def] at hc
      cases hc
      have hop := window_single hw
      have hconst := constants_at hm hpre
      obtain ⟨σ2, hstep, hfrm, hfun, hlen⟩ := step_constant hfr hfn hop hconst
      refine Or.inr (Or.inr ⟨1, σ2, by rw [runFuel_one, hstep], ?_, hfun, hlen⟩)
      rw [hfrm, hfr, bumpIp_concat]
      exact frames_ip_eq frB fr _ _ (by simp)
  | str hS =>
    intro pool pool2 c σ frB fr fn hc hfr hfn hw hpre
    cases hm : makeConstant pool (.StringObj hS) with
    | none => simp [compileExpr, hm] at hc
    | some ip =>
      obtain ⟨i, p⟩ := ip
      simp only [compileExpr, hm, Option.bind_eq_bind, Option.some_bind,
        Option.pure_def] at hc
      cases hc
      have hop := window_single hw
      have hconst := constants_at hm hpre
      obtain ⟨σ2, hstep, hfrm, hfun, hlen⟩ := step_constant hfr hfn hop hconst
      refine Or.inr (Or.inr ⟨1, σ2, by rw [runFuel_one, hstep], ?_, hfun, hlen⟩)
      rw [hfrm, hfr, bumpIp_concat]
      exact frames_ip_eq frB fr _ _ (by simp)
  | litTrue =>
    intro pool pool2 c σ frB fr fn hc hfr hfn hw hpre
    simp only [compileExpr] at hc
    cases hc
    have hop := window_single hw
    have hstep : vmStep σ = .ok
        { σ with stack := σ.stack ++ [Value.Bool true], frames := bumpIp σ.frames } := by
      rw [vmStep_eq hfr hfn hop]
      simp only [execOp]
    refine Or.inr (Or.inr ⟨1,
      { σ with stack := σ.stack ++ [Value.Bool true], frames := bumpIp σ.frames },
      by rw [runFuel_one, hstep], ?_, rfl, by simp⟩)
    show bumpIp σ.frames = _
    rw [hfr, bumpIp_concat]
    exact frames_ip_eq frB fr _ _ (by simp)
  | litFalse =>
    intro pool pool2 c σ frB fr fn hc hfr hfn hw hpre
    simp only [compileExpr] at hc
    cases hc
    have hop := window_single hw
    have hstep : vmStep σ = .ok
        { σ with stack := σ.stack ++ [Value.Bool false], frames := bumpIp σ.frames } := by
      rw [vmStep_eq hfr hfn hop]
      simp only [execOp]
    refine Or.inr (Or.inr ⟨1,
      { σ with stack := σ.stack ++ [Value.Bool false], frames := bumpIp σ.frames },
      by rw [runFuel_one, hstep], ?_, rfl, by simp⟩)
    show bumpIp σ.frames = _
    rw [hfr, bumpIp_concat]
    exact frames_ip_eq frB fr _ _ (by simp)
  | litNil =>
    intro pool pool2 c σ frB fr fn hc hfr hfn hw hpre
    simp only [compileExpr] at hc
    cases hc
    have hop := window_single hw
    have hstep : vmStep σ = .ok
        { σ with stack := σ.stack ++ [Value.Nil], frames := bumpIp σ.frames } := by
      rw [vmStep_eq hfr hfn hop]
      simp only [execOp]
    refine Or.inr (Or.inr ⟨1,
      { σ with stack := σ.stack ++ [Value.Nil], frames := bumpIp σ.frames },
      by rw [runFuel_one, hstep], ?_, rfl, by simp⟩)
    show bumpIp σ.frames = _
    rw [hfr, bumpIp_concat]
    exact frames_ip_eq frB fr _ _ (by simp)
  | getLocal i =>
    intro pool pool2 c σ frB fr fn hc hfr hfn hw hpre
    simp only [compileExpr] at hc
    cases hc
    have hop := window_single hw
    rcases step_getLocal hfr hfn hop with ⟨m, hcr⟩ | ⟨σ2, hstep, hfrm, hfun, hlen⟩
    · exact Or.inr (Or.inl ⟨1, m, by rw [runFuel_one, hcr]⟩)
    · refine Or.inr (Or.inr ⟨1, σ2, by rw [runFuel_one, hstep], ?_, hfun, hlen⟩)
      rw [hfrm, hfr, bumpIp_concat]
      exact frames_ip_eq frB fr _ _ (by simp)
  | getGlobal hS =>
    intro pool pool2 c σ frB fr fn hc hfr hfn hw hpre
    cases hm : makeConstant pool (.Identifier hS) with
    | none => simp [compileExpr, hm] at hc
    | some ip =>
      obtain ⟨i, p⟩ := ip
      simp only [compileExpr, hm, Option.bind_eq_bind, Option.some_bind,
        Option.pure_def] at hc
      cases hc
      have hop := window_single hw
      have hconst := constants_at hm hpre
      rcases step_getGlobal hfr hfn hop hconst with ⟨σe, m, herr⟩ |
        ⟨σ2, hstep, hfrm, hfun, hlen⟩
      · exact Or.inl ⟨1, σe, m, by rw [runFuel_one, herr]⟩
      · refine Or.inr (Or.inr ⟨1, σ2, by rw [runFuel_one, hstep], ?_, hfun, hlen⟩)
        rw [hfrm, hfr, bumpIp_concat]
        exact frames_ip_eq frB fr _ _ (by simp)
  | setLocal i rhs ih =>
    intro pool pool2 c σ frB fr fn hc hfr hfn hw hpre
    cases hr : compileExpr rhs pool with
    | none => simp [compileExpr, hr] at hc
    | some cp =>
      obtain ⟨cr, p⟩ := cp
      simp only [compileExpr, hr, Option.bind_eq_bind, Option.some_bind,
        Option.pure_def] at hc
      cases hc
      obtain ⟨hwr, hwop⟩ := codeWindow_append _ _ hw
      rcases ih pool pool2 cr σ frB fr fn hr hfr hfn hwr hpre with
        herr | hcrash | ⟨k1, σ1, hrun1, hfr1, hfun1, hlen1⟩
      · exact Or.inl herr
      · exact Or.inr (Or.inl hcrash)
      · have hfn1 : σ1.functions.get? fr.f_idx = some fn := by rw [hfun1]; exact hfn
        have hop1 : fn.chunk.code.get? (fr.ip + cr.length) = some (.SetLocal i) :=
          window_single hwop
        rcases step_setLocal hfr1 hfn1 hop1 (by omega) with ⟨m, hcr2⟩ | ⟨σ2, hstep, hfrm, hfun, hlen⟩
        · exact Or.inr (Or.inl ⟨k1 + 1, m,
            by rw [runFuel_extend hrun1, runFuel_one, hcr2]⟩)
        · refine Or.inr (Or.inr ⟨k1 + 1, σ2,
            by rw [runFuel_extend hrun1, runFuel_one, hstep], ?_,
            by rw [hfun, hfun1], by omega⟩)
          rw [hfrm, hfr1, bumpIp_concat]
          exact frames_ip_eq frB fr _ _
            (by simp only [BinOp.emitted, List.length_append, List.length_cons, List.length_nil]; omega)
  | setGlobal hS rhs ih =>
    intro pool pool2 c σ frB fr fn hc hfr hfn hw hpre
    cases hm : makeConstant pool (.Identifier hS) with
    | none => simp [compileExpr, hm] at hc
    | some ip =>
      obtain ⟨i, p1⟩ := ip
      simp only [compileExpr, hm, Option.bind_eq_bind, Option.some_bind,
        Option.pure_def] at hc
      cases hr : compileExpr rhs p1 with
      | none => rw [hr] at hc; simp only [Option.none_bind] at hc; cases hc
      | some cp =>
        obtain ⟨cr, p⟩ := cp
        rw [hr] at hc
        simp only [Option.some_bind, Option.pure_def] at hc
        cases hc
        obtain ⟨hwr, hwop⟩ := codeWindow_append _ _ hw
        have hpre1 : p1 <+: fn.chunk.constants := (compileExpr_pool_extends rhs hr).trans hpre
        have hconst := constants_at hm hpre1
        rcases ih p1 pool2 cr σ frB fr fn hr hfr hfn hwr hpre with
          herr | hcrash | ⟨k1, σ1, hrun1, hfr1, hfun1, hlen1⟩
        · exact Or.inl herr
        · exact Or.inr (Or.inl hcrash)
        · have hfn1 : σ1.functions.get? fr.f_idx = some fn := by rw [hfun1]; exact hfn
          have hop1 : fn.chunk.code.get? (fr.ip + cr.length) = some (.SetGlobal i) :=
            window_single hwop
          rcases step_setGlobal hfr1 hfn1 hop1 hconst (by omega) with ⟨σe, m, herr2⟩ |
              ⟨σ2, hstep, hfrm, hfun, hlen⟩
          · exact Or.inl ⟨k1 + 1, σe, m,
              by rw [runFuel_extend hrun1, runFuel_one, herr2]⟩
          · refine Or.inr (Or.inr ⟨k1 + 1, σ2,
              by rw [runFuel_extend hrun1, runFuel_one, hstep], ?_,
              by rw [hfun, hfun1], by omega⟩)
            rw [hfrm, hfr1, bumpIp_concat]
            exact frames_ip_eq frB fr _ _
              (by simp only [BinOp.emitted, List.length_append, List.length_cons, List.length_nil]; omega)
  | unaryNot e ih =>
    intro pool pool2 c σ frB fr fn hc hfr hfn hw hpre
    cases hr : compileExpr e pool with
    | none => simp [compileExpr, hr] at hc
    | some cp =>
      obtain ⟨ce, p⟩ := cp
      simp only [compileExpr, hr, Option.bind_eq_bind, Option.some_bind,
        Option.pure_def] at hc
      cases hc
      obtain ⟨hwr, hwop⟩ := codeWindow_append _ _ hw
      rcases ih pool pool2 ce σ frB fr fn hr hfr hfn hwr hpre with
        herr | hcrash | ⟨k1, σ1, hrun1, hfr1, hfun1, hlen1⟩
      · exact Or.inl herr
      · exact Or.inr (Or.inl hcrash)
      · have hfn1 : σ1.functions.get? fr.f_idx = some fn := by rw [hfun1]; exact hfn
        have hop1 : fn.chunk.code.get? (fr.ip + ce.length) = some .Not :=
          window_single hwop
        obtain ⟨σ2, hstep, hfrm, hfun, hlen⟩ :=
          step_not hfr1 hfn1 hop1 (by omega)
        refine Or.inr (Or.inr ⟨k1 + 1, σ2,
          by rw [runFuel_extend hrun1, runFuel_one, hstep], ?_,
          by rw [hfun, hfun1], by omega⟩)
        rw [hfrm, hfr1, bumpIp_concat]
        exact frames_ip_eq frB fr _ _
          (by simp only [BinOp.emitted, List.length_append, List.length_cons, List.length_nil]; omega)
  | unaryNeg e ih =>
    intro pool pool2 c σ frB fr fn hc hfr hfn hw hpre
    cases hr : compileExpr e pool with
    | none => simp [compileExpr, hr] at hc
    | some cp =>
      obtain ⟨ce, p⟩ := cp
      simp only [compileExpr, hr, Option.bind_eq_bind, Option.some_bind,
        Option.pure_def] at hc
      cases hc
      obtain ⟨hwr, hwop⟩ := codeWindow_append _ _ hw
      rcases ih pool pool2 ce σ frB fr fn hr hfr hfn hwr hpre with
        herr | hcrash | ⟨k1, σ1, hrun1, hfr1, hfun1, hlen1⟩
      · exact Or.inl herr
      · exact Or.inr (Or.inl hcrash)
      · have hfn1 : σ1.functions.get? fr.f_idx = some fn := by rw [hfun1]; exact hfn
        have hop1 : fn.chunk.code.get? (fr.ip + ce.length) = some .Negate :=
          window_single hwop
        rcases step_negate hfr1 hfn1 hop1 (by omega) with ⟨σe, m, herr2⟩ |
            ⟨σ2, hstep, hfrm, hfun, hlen⟩
        · exact Or.inl ⟨k1 + 1, σe, m,
            by rw [runFuel_extend hrun1, runFuel_one, herr2]⟩
        · refine Or.inr (Or.inr ⟨k1 + 1, σ2,
            by rw [runFuel_extend hrun1, runFuel_one, hstep], ?_,
            by rw [hfun, hfun1], by omega⟩)
          rw [hfrm, hfr1, bumpIp_concat]
          exact frames_ip_eq frB fr _ _
            (by simp only [BinOp.emitted, List.length_append, List.length_cons, List.length_nil]; omega)
  | bin op lhs rhs ihl ihr =>
    intro pool pool2 c σ frB fr fn hc hfr hfn hw hpre
    cases hl : compileExpr lhs pool with
    | none => simp [compileExpr, hl] at hc
    | some cpl =>
      obtain ⟨cl, p1⟩ := cpl
      simp only [compileExpr, hl, Option.bind_eq_bind, Option.some_bind,
        Option.pure_def] at hc
      cases hr : compileExpr rhs p1 with
      | none => rw [hr] at hc; simp only [Option.none_bind] at hc; cases hc
      | some cpr =>
        obtain ⟨cr, p⟩ := cpr
        rw [hr] at hc
        simp only [Option.some_bind, Option.pure_def] at hc
        cases hc
        obtain ⟨hwlr, hwops⟩ := codeWindow_append _ _ hw
        obtain ⟨hwl, hwr2⟩ := codeWindow_append _ _ hwlr
        rw [List.length_append, ← Nat.add_assoc] at hwops
        have hprel : p1 <+: fn.chunk.constants := (compileExpr_pool_extends rhs hr).trans hpre
        rcases ihl pool p1 cl σ frB fr fn hl hfr hfn hwl hprel with
          herr | hcrash | ⟨k1, σ1, hrun1, hfr1, hfun1, hlen1⟩
        · exact Or.inl herr
        · exact Or.inr (Or.inl hcrash)
        · have hfn1 : σ1.functions.get? fr.f_idx = some fn := by rw [hfun1]; exact hfn
          rcases ihr p1 pool2 cr σ1 frB { fr with ip := fr.ip + cl.length } fn
              hr hfr1 hfn1 hwr2 hpre with
            herr | hcrash | ⟨k2, σ2, hrun2, hfr2, hfun2, hlen2⟩
          · obtain ⟨k2, σe, m, herr2⟩ := herr
            exact Or.inl ⟨k1 + k2, σe, m, by rw [runFuel_extend hrun1]; exact herr2⟩
          · obtain ⟨k2, m, hcrash2⟩ := hcrash
            exact Or.inr (Or.inl ⟨k1 + k2, m,
              by rw [runFuel_extend hrun1]; exact hcrash2⟩)
          · have hfr2a : σ2.frames =
                frB ++ [{ fr with ip := fr.ip + cl.length + cr.length }] := hfr2
            have hfn2 : σ2.functions.get? fr.f_idx = some fn := by
              rw [hfun2, hfun1]; exact hfn
            have h2 : 2 ≤ σ2.stack.length := by omega
            cases op with
            | add =>
              have hop2 : fn.chunk.code.get? (fr.ip + cl.length + cr.length) =
                  some .Add := window_single hwops
              rcases step_add hfr2a hfn2 hop2 h2 with ⟨σe, m, herr3⟩ |
                ⟨σ3, hstep, hfrm, hfun3, hlen3⟩
              · exact Or.inl ⟨k1 + (k2 + 1), σe, m,
                  by rw [runFuel_extend hrun1, runFuel_extend hrun2, runFuel_one, herr3]⟩
              · refine Or.inr (Or.inr ⟨k1 + (k2 + 1), σ3,
                  by rw [runFuel_extend hrun1, runFuel_extend hrun2, runFuel_one, hstep],
                  ?_, by rw [hfun3, hfun2, hfun1], by omega⟩)
                rw [hfrm, hfr2a, bumpIp_concat]
                exact frames_ip_eq frB fr _ _
                  (by simp only [BinOp.emitted, List.length_append, List.length_cons, List.length_nil]; omega)
            | sub =>
              have hop2 : fn.chunk.code.get? (fr.ip + cl.length + cr.length) =
                  some .Subtract := window_single hwops
              have hvm : vmStep σ2 = binary_op σ2 (fun x y => Value.Number (x - y)) := by
                rw [vmStep_eq hfr2a hfn2 hop2]
                simp only [execOp]
              rcases binary_op_cases σ2 (fun x y => Value.Number (x - y)) h2 with
                ⟨σe, m, herr3⟩ | ⟨σ3, hok, hfrm, hfun3, hlen3⟩
              · exact Or.inl ⟨k1 + (k2 + 1), σe, m,
                  by rw [runFuel_extend hrun1, runFuel_extend hrun2, runFuel_one, hvm, herr3]⟩
              · refine Or.inr (Or.inr ⟨k1 + (k2 + 1), σ3,
                  by rw [runFuel_extend hrun1, runFuel_extend hrun2, runFuel_one, hvm, hok],
                  ?_, by rw [hfun3, hfun2, hfun1], by omega⟩)
                rw [hfrm, hfr2a, bumpIp_concat]
                exact frames_ip_eq frB fr _ _
                  (by simp only [BinOp.emitted, List.length_append, List.length_cons, List.length_nil]; omega)
            | mul =>
              have hop2 : fn.chunk.code.get? (fr.ip + cl.length + cr.length) =
                  some .Multiply := window_single hwops
              have hvm : vmStep σ2 = binary_op σ2 (fun x y => Value.Number (x * y)) := by
                rw [vmStep_eq hfr2a hfn2 hop2]
                simp only [execOp]
              rcases binary_op_cases σ2 (fun x y => Value.Number (x * y)) h2 with
                ⟨σe, m, herr3⟩ | ⟨σ3, hok, hfrm, hfun3, hlen3⟩
              · exact Or.inl ⟨k1 + (k2 + 1), σe, m,
                  by rw [runFuel_extend hrun1, runFuel_extend hrun2, runFuel_one, hvm, herr3]⟩
              · refine Or.inr (Or.inr ⟨k1 + (k2 + 1), σ3,
                  by rw [runFuel_extend hrun1, runFuel_extend hrun2, runFuel_one, hvm, hok],
                  ?_, by rw [hfun3, hfun2, hfun1], by omega⟩)
                rw [hfrm, hfr2a, bumpIp_concat]
                exact frames_ip_eq frB fr _ _
                  (by simp only [BinOp.emitted, List.length_append, List.length_cons, List.length_nil]; omega)
            | div =>
              have hop2 : fn.chunk.code.get? (fr.ip + cl.length + cr.length) =
                  some .Divide := window_single hwops
              have hvm : vmStep σ2 = binary_op σ2 (fun x y => Value.Number (x / y)) := by
                rw [vmStep_eq hfr2a hfn2 hop2]
                simp only [execOp]
              rcases binary_op_cases σ2 (fun x y => Value.Number (x / y)) h2 with
                ⟨σe, m, herr3⟩ | ⟨σ3, hok, hfrm, hfun3, hlen3⟩
              · exact Or.inl ⟨k1 + (k2 + 1), σe, m,
                  by rw [runFuel_extend hrun1, runFuel_extend hrun2, runFuel_one, hvm, herr3]⟩
              · refine Or.inr (Or.inr ⟨k1 + (k2 + 1), σ3,
                  by rw [runFuel_extend hrun1, runFuel_extend hrun2, runFuel_one, hvm, hok],
                  ?_, by rw [hfun3, hfun2, hfun1], by omega⟩)
                rw [hfrm, hfr2a, bumpIp_concat]
                exact frames_ip_eq frB fr _ _
                  (by simp only [BinOp.emitted, List.length_append, List.length_cons, List.length_nil]; omega)
            | gt =>
              have hop2 : fn.chunk.code.get? (fr.ip + cl.length + cr.length) =
                  some .Greater := window_single hwops
              have hvm : vmStep σ2 =
                  binary_op σ2 (fun x y => Value.Bool (decide (x > y))) := by
                rw [vmStep_eq hfr2a hfn2 hop2]
                simp only [execOp]
              rcases binary_op_cases σ2 (fun x y => Value.Bool (decide (x > y))) h2 with
                ⟨σe, m, herr3⟩ | ⟨σ3, hok, hfrm, hfun3, hlen3⟩
              · exact Or.inl ⟨k1 + (k2 + 1), σe, m,
                  by rw [runFuel_extend hrun1, runFuel_extend hrun2, runFuel_one, hvm, herr3]⟩
              · refine Or.inr (Or.inr ⟨k1 + (k2 + 1), σ3,
                  by rw [runFuel_extend hrun1, runFuel_extend hrun2, runFuel_one, hvm, hok],
                  ?_, by rw [hfun3, hfun2, hfun1], by omega⟩)
                rw [hfrm, hfr2a, bumpIp_concat]
                exact frames_ip_eq frB fr _ _
                  (by simp only [BinOp.emitted, List.length_append, List.length_cons, List.length_nil]; omega)
            | lt =>
              have hop2 : fn.chunk.code.get? (fr.ip + cl.length + cr.length) =
                  some .Less := window_single hwops
              have hvm : vmStep σ2 =
                  binary_op σ2 (fun x y => Value.Bool (decide (x < y))) := by
                rw [vmStep_eq hfr2a hfn2 hop2]
                simp only [execOp]
              rcases binary_op_cases σ2 (fun x y => Value.Bool (decide (x < y))) h2 with
                ⟨σe, m, herr3⟩ | ⟨σ3, hok, hfrm, hfun3, hlen3⟩
              · exact Or.inl ⟨k1 + (k2 + 1), σe, m,
                  by rw [runFuel_extend hrun1, runFuel_extend hrun2, runFuel_one, hvm, herr3]⟩
              · refine Or.inr (Or.inr ⟨k1 + (k2 + 1), σ3,
                  by rw [runFuel_extend hrun1, runFuel_extend hrun2, runFuel_one, hvm, hok],
                  ?_, by rw [hfun3, hfun2, hfun1], by omega⟩)
                rw [hfrm, hfr2a, bumpIp_concat]
                exact frames_ip_eq frB fr _ _
                  (by simp only [BinOp.emitted, List.length_append, List.length_cons, List.length_nil]; omega)
            | eq =>
              have hop2 : fn.chunk.code.get? (fr.ip + cl.length + cr.length) =
                  some .Equal := window_single hwops
              obtain ⟨σ3, hstep, hfrm, hfun3, hlen3⟩ := step_equal hfr2a hfn2 hop2 h2
              refine Or.inr (Or.inr ⟨k1 + (k2 + 1), σ3,
                by rw [runFuel_extend hrun1, runFuel_extend hrun2, runFuel_one, hstep],
                ?_, by rw [hfun3, hfun2, hfun1], by omega⟩)
              rw [hfrm, hfr2a, bumpIp_concat]
              exact frames_ip_eq frB fr _ _
                (by simp only [BinOp.emitted, List.length_append, List.length_cons, List.length_nil]; omega)
            | neq =>
              obtain ⟨hop2, hwnot⟩ := window_head hwops
              obtain ⟨σ3, hstep3, hfrm3, hfun3, hlen3⟩ := step_equal hfr2a hfn2 hop2 h2
              have hfr3 : σ3.frames =
                  frB ++ [{ fr with ip := fr.ip + cl.length + cr.length + 1 }] := by
                rw [hfrm3, hfr2a, bumpIp_concat]
              have hfn3 : σ3.functions.get? fr.f_idx = some fn := by
                rw [hfun3, hfun2, hfun1]; exact hfn
              have hop3 := window_single hwnot
              obtain ⟨σ4, hstep4, hfrm4, hfun4, hlen4⟩ :=
                step_not hfr3 hfn3 hop3 (by omega)
              have hrun23 : runFuel 1 σ2 = .ok σ3 := by rw [runFuel_one, hstep3]
              refine Or.inr (Or.inr ⟨k1 + (k2 + (1 + 1)), σ4,
                by rw [runFuel_extend hrun1, runFuel_extend hrun2,
                       runFuel_extend hrun23, runFuel_one, hstep4],
                ?_, by rw [hfun4, hfun3, hfun2, hfun1], by omega⟩)
              rw [hfrm4, hfr3, bumpIp_concat]
              exact frames_ip_eq frB fr _ _
                (by simp only [BinOp.emitted, List.length_append, List.length_cons, List.length_nil]; omega)
            | ge =>
              obtain ⟨hop2, hwnot⟩ := window_head hwops
              have hvm : vmStep σ2 =
                  binary_op σ2 (fun x y => Value.Bool (decide (x < y))) := by
                rw [vmStep_eq hfr2a hfn2 hop2]
                simp only [execOp]
              rcases binary_op_cases σ2 (fun x y => Value.Bool (decide (x < y))) h2 with
                ⟨σe, m, herr3⟩ | ⟨σ3, hok, hfrm3, hfun3, hlen3⟩
              · exact Or.inl ⟨k1 + (k2 + 1), σe, m,
                  by rw [runFuel_extend hrun1, runFuel_extend hrun2, runFuel_one, hvm, herr3]⟩
              · have hstep3 : vmStep σ2 = .ok σ3 := by rw [hvm]; exact hok
                have hfr3 : σ3.frames =
                    frB ++ [{ fr with ip := fr.ip + cl.length + cr.length + 1 }] := by
                  rw [hfrm3, hfr2a, bumpIp_concat]
                have hfn3 : σ3.functions.get? fr.f_idx = some fn := by
                  rw [hfun3, hfun2, hfun1]; exact hfn
                have hop3 := window_single hwnot
                obtain ⟨σ4, hstep4, hfrm4, hfun4, hlen4⟩ :=
                  step_not hfr3 hfn3 hop3 (by omega)
                have hrun23 : runFuel 1 σ2 = .ok σ3 := by rw [runFuel_one, hstep3]
                refine Or.inr (Or.inr ⟨k1 + (k2 + (1 + 1)), σ4,
                  by rw [runFuel_extend hrun1, runFuel_extend hrun2,
                         runFuel_extend hrun23, runFuel_one, hstep4],
                  ?_, by rw [hfun4, hfun3, hfun2, hfun1], by omega⟩)
                rw [hfrm4, hfr3, bumpIp_concat]
                exact frames_ip_eq frB fr _ _
                  (by simp only [BinOp.emitted, List.length_append, List.length_cons, List.length_nil]; omega)
            | le =>
              obtain ⟨hop2, hwnot⟩ := window_head hwops
              have hvm : vmStep σ2 =
                  binary_op σ2 (fun x y => Value.Bool (decide (x > y))) := by
                rw [vmStep_eq hfr2a hfn2 hop2]
                simp only [execOp]
              rcases binary_op_cases σ2 (fun x y => Value.Bool (decide (x > y))) h2 with
                ⟨σe, m, herr3⟩ | ⟨σ3, hok, hfrm3, hfun3, hlen3⟩
              · exact Or.inl ⟨k1 + (k2 + 1), σe, m,
                  by rw [runFuel_extend hrun1, runFuel_extend hrun2, runFuel_one, hvm, herr3]⟩
              · have hstep3 : vmStep σ2 = .ok σ3 := by rw [hvm]; exact hok
                have hfr3 : σ3.frames =
                    frB ++ [{ fr with ip := fr.ip + cl.length + cr.length + 1 }] := by
                  rw [hfrm3, hfr2a, bumpIp_concat]
                have hfn3 : σ3.functions.get? fr.f_idx = some fn := by
                  rw [hfun3, hfun2, hfun1]; exact hfn
                have hop3 := window_single hwnot
                obtain ⟨σ4, hstep4, hfrm4, hfun4, hlen4⟩ :=
                  step_not hfr3 hfn3 hop3 (by omega)
                have hrun23 : runFuel 1 σ2 = .ok σ3 := by rw [runFuel_one, hstep3]
                refine Or.inr (Or.inr ⟨k1 + (k2 + (1 + 1)), σ4,
                  by rw [runFuel_extend hrun1, runFuel_extend hrun2,
                         runFuel_extend hrun23, runFuel_one, hstep4],
                  ?_, by rw [hfun4, hfun3, hfun2, hfun1], by omega⟩)
                rw [hfrm4, hfr3, bumpIp_concat]
                exact frames_ip_eq frB fr _ _
                  (by simp only [BinOp.emitted, List.length_append, List.length_cons, List.length_nil]; omega)
  | land lhs rhs ihl ihr =>
    intro pool pool2 c σ frB fr fn hc hfr hfn hw hpre
    cases hl : compileExpr lhs pool with
    | none => simp [compileExpr, hl] at hc
    | some cpl =>
      obtain ⟨cl, p1⟩ := cpl
      simp only [compileExpr, hl, Option.bind_eq_bind, Option.some_bind,
        Option.pure_def] at hc
      cases hr : compileExpr rhs p1 with
      | none => rw [hr] at hc; simp only [Option.none_bind] at hc; cases hc
      | some cpr =>
        obtain ⟨cr, p⟩ := cpr
        rw [hr] at hc
        simp only [Option.some_bind, Option.pure_def] at hc
        cases hc
        obtain ⟨hwlj, hwcr⟩ := codeWindow_append _ _ hw
        obtain ⟨hwl, hwjp⟩ := codeWindow_append _ _ hwlj
        obtain ⟨hopJ, hwp⟩ := window_head hwjp
        have hopP := window_single hwp
        rw [List.length_append, ← Nat.add_assoc] at hwcr
        simp only [List.length_cons, List.length_nil] at hwcr
        have hprel : p1 <+: fn.chunk.constants := (compileExpr_pool_extends rhs hr).trans hpre
        rcases ihl pool p1 cl σ frB fr fn hl hfr hfn hwl hprel with
          herr | hcrash | ⟨k1, σ1, hrun1, hfr1, hfun1, hlen1⟩
        · exact Or.inl herr
        · exact Or.inr (Or.inl hcrash)
        · have hfn1 : σ1.functions.get? fr.f_idx = some fn := by rw [hfun1]; exact hfn
          rcases step_jumpIfFalse hfr1 hfn1 hopJ (by omega) with
            ⟨σJ, hstepJ, hfrJ, hfunJ, hstJ⟩ | ⟨σn, hstepn, hfrn, hfunn, hstn⟩
          · -- LHS falsey: jump over Pop and the RHS, keep the LHS value
            refine Or.inr (Or.inr ⟨k1 + 1, σJ,
              by rw [runFuel_extend hrun1, runFuel_one, hstepJ], ?_,
              by rw [hfunJ, hfun1], by rw [hstJ]; omega⟩)
            rw [hfrJ, hfr1, setIp_concat]
            exact frames_ip_eq frB fr _ _
              (by simp only [BinOp.emitted, List.length_append, List.length_cons, List.length_nil]; omega)
          · -- LHS truthy: fall through, Pop it, run the RHS
            have hfrn2 : σn.frames =
                frB ++ [{ fr with ip := fr.ip + cl.length + 1 }] := by
              rw [hfrn, hfr1, bumpIp_concat]
            have hfnn : σn.functions.get? fr.f_idx = some fn := by
              rw [hfunn, hfun1]; exact hfn
            obtain ⟨σp, hstepp, hfrp, hfunp, hstp⟩ := step_pop hfrn2 hfnn hopP
            have hfrp2 : σp.frames =
                frB ++ [{ fr with ip := fr.ip + cl.length + 1 + 1 }] := by
              rw [hfrp, hfrn2, bumpIp_concat]
            have hfnp : σp.functions.get? fr.f_idx = some fn := by
              rw [hfunp, hfunn, hfun1]; exact hfn
            have hstp2 : σp.stack.length = σ.stack.length := by
              rw [hstp, hstn, List.length_dropLast]; omega
            have hrun1n : runFuel 1 σ1 = .ok σn := by rw [runFuel_one, hstepn]
            have hrunnp : runFuel 1 σn = .ok σp := by rw [runFuel_one, hstepp]
            rcases ihr p1 pool2 cr σp frB
                { fr with ip := fr.ip + cl.length + 1 + 1 } fn hr hfrp2 hfnp hwcr hpre with
              herr | hcrash | ⟨k3, σ3, hrun3, hfr3, hfun3, hlen3⟩
            · obtain ⟨k3, σe, m, herr3⟩ := herr
              exact Or.inl ⟨k1 + (1 + (1 + k3)), σe, m,
                by rw [runFuel_extend hrun1, runFuel_extend hrun1n,
                       runFuel_extend hrunnp]; exact herr3⟩
            · obtain ⟨k3, m, hcrash3⟩ := hcrash
              exact Or.inr (Or.inl ⟨k1 + (1 + (1 + k3)), m,
                by rw [runFuel_extend hrun1, runFuel_extend hrun1n,
                       runFuel_extend hrunnp]; exact hcrash3⟩)
            · refine Or.inr (Or.inr ⟨k1 + (1 + (1 + k3)), σ3,
                by rw [runFuel_extend hrun1, runFuel_extend hrun1n,
                       runFuel_extend hrunnp]; exact hrun3,
                ?_, by rw [hfun3, hfunp, hfunn, hfun1], by omega⟩)
              rw [hfr3]
              exact frames_ip_eq frB fr _ _
                (by simp only [BinOp.emitted, List.length_append, List.length_cons, List.length_nil]; omega)
  | lor lhs rhs ihl ihr =>
    intro pool pool2 c σ frB fr fn hc hfr hfn hw hpre
    cases hl : compileExpr lhs pool with
    | none => simp [compileExpr, hl] at hc
    | some cpl =>
      obtain ⟨cl, p1⟩ := cpl
      simp only [compileExpr, hl, Option.bind_eq_bind, Option.some_bind,
        Option.pure_def] at hc
      cases hr : compileExpr rhs p1 with
      | none => rw [hr] at hc; simp only [Option.none_bind] at hc; cases hc
      | some cpr =>
        obtain ⟨cr, p⟩ := cpr
        rw [hr] at hc
        simp only [Option.some_bind, Option.pure_def] at hc
        cases hc
        obtain ⟨hwlj, hwcr⟩ := codeWindow_append _ _ hw
        obtain ⟨hwl, hwjjp⟩ := codeWindow_append _ _ hwlj
        obtain ⟨hopJ1, hwjp⟩ := window_head hwjjp
        obtain ⟨hopJ2, hwp⟩ := window_head hwjp
        have hopP := window_single hwp
        rw [List.length_append, ← Nat.add_assoc] at hwcr
        simp only [List.length_cons, List.length_nil] at hwcr
        have hprel : p1 <+: fn.chunk.constants := (compileExpr_pool_extends rhs hr).trans hpre
        rcases ihl pool p1 cl σ frB fr fn hl hfr hfn hwl hprel with
          herr | hcrash | ⟨k1, σ1, hrun1, hfr1, hfun1, hlen1⟩
        · exact Or.inl herr
        · exact Or.inr (Or.inl hcrash)
        · have hfn1 : σ1.functions.get? fr.f_idx = some fn := by rw [hfun1]; exact hfn
          rcases step_jumpIfFalse hfr1 hfn1 hopJ1 (by omega) with
            ⟨σJ, hstepJ, hfrJ, hfunJ, hstJ⟩ | ⟨σn, hstepn, hfrn, hfunn, hstn⟩
          · -- LHS falsey: jump onto the Pop, discard it, run the RHS
            have hfrJ2 : σJ.frames =
                frB ++ [{ fr with ip := fr.ip + cl.length + 1 + 1 }] := by
              rw [hfrJ, hfr1, setIp_concat]
            have hfnJ : σJ.functions.get? fr.f_idx = some fn := by
              rw [hfunJ, hfun1]; exact hfn
            obtain ⟨σp, hstepp, hfrp, hfunp, hstp⟩ := step_pop hfrJ2 hfnJ hopP
            have hfrp2 : σp.frames =
                frB ++ [{ fr with ip := fr.ip + cl.length + 1 + 1 + 1 }] := by
              rw [hfrp, hfrJ2, bumpIp_concat]
            have hfnp : σp.functions.get? fr.f_idx = some fn := by
              rw [hfunp, hfunJ, hfun1]; exact hfn
            have hstp2 : σp.stack.length = σ.stack.length := by
              rw [hstp, hstJ, List.length_dropLast]; omega
            have hrun1J : runFuel 1 σ1 = .ok σJ := by rw [runFuel_one, hstepJ]
            have hrunJp : runFuel 1 σJ = .ok σp := by rw [runFuel_one, hstepp]
            rcases ihr p1 pool2 cr σp frB
                { fr with ip := fr.ip + cl.length + 1 + 1 + 1 } fn hr hfrp2 hfnp hwcr hpre with
              herr | hcrash | ⟨k3, σ3, hrun3, hfr3, hfun3, hlen3⟩
            · obtain ⟨k3, σe, m, herr3⟩ := herr
              exact Or.inl ⟨k1 + (1 + (1 + k3)), σe, m,
                by rw [runFuel_extend hrun1, runFuel_extend hrun1J,
                       runFuel_extend hrunJp]; exact herr3⟩
            · obtain ⟨k3, m, hcrash3⟩ := hcrash
              exact Or.inr (Or.inl ⟨k1 + (1 + (1 + k3)), m,
                by rw [runFuel_extend hrun1, runFuel_extend hrun1J,
                       runFuel_extend hrunJp]; exact hcrash3⟩)
            · refine Or.inr (Or.inr ⟨k1 + (1 + (1 + k3)), σ3,
                by rw [runFuel_extend hrun1, runFuel_extend hrun1J,
                       runFuel_extend hrunJp]; exact hrun3,
                ?_, by rw [hfun3, hfunp, hfunJ, hfun1], by omega⟩)
              rw [hfr3]
              exact frames_ip_eq frB fr _ _
                (by simp only [BinOp.emitted, List.length_append, List.length_cons, List.length_nil]; omega)
          · -- LHS truthy: fall through to the unconditional Jump past the RHS
            have hfrn2 : σn.frames =
                frB ++ [{ fr with ip := fr.ip + cl.length + 1 }] := by
              rw [hfrn, hfr1, bumpIp_concat]
            have hfnn : σn.functions.get? fr.f_idx = some fn := by
              rw [hfunn, hfun1]; exact hfn
            obtain ⟨σJ2, hstepJ2, hfrJ2, hfunJ2, hstJ2⟩ := step_jump hfrn2 hfnn hopJ2
            have hrun1n : runFuel 1 σ1 = .ok σn := by rw [runFuel_one, hstepn]
            refine Or.inr (Or.inr ⟨k1 + (1 + 1), σJ2,
              by rw [runFuel_extend hrun1, runFuel_extend hrun1n, runFuel_one, hstepJ2],
              ?_, by rw [hfunJ2, hfunn, hfun1],
              by rw [hstJ2, hstn]; omega⟩)
            rw [hfrJ2, hfrn2, setIp_concat]
            exact frames_ip_eq frB fr _ _
              (by simp only [BinOp.emitted, List.length_append, List.length_cons, List.length_nil]; omega)

/-- Claim C8 (confirmed): for every expression `E`, executing the
compiled statement `E;` (the expression's code followed by the `Pop`
that `expression_statement` emits) either aborts — a runtime error or a
panic, i.e. it does not "execute without a runtime error" — or reaches
the end of the statement's code with the value stack at EXACTLY the size
it had before: the expression pushed a net of one value and the trailing
`Pop` removed it.  (The compiler never emits `Call` — src/compiler.rs
registers no infix rule for `(` and never constructs `OpCode::Call` — so
`compileExpr` covers every opcode sequence expression statements
compile to.) -/
theorem expression_statement_neutral :
    ∀ (e : Expr) (pool pool2 : List Value) (c : List OpCode) (σ : VMState)
      (frB : List CallFrame) (fr : CallFrame) (fn : Function),
      compileExprStatement e pool = some (c, pool2) →
      σ.frames = frB ++ [fr] →
      σ.functions.get? fr.f_idx = some fn →
      codeWindow fn.chunk.code fr.ip c →
      pool2 <+: fn.chunk.constants →
      (∃ k σe m, runFuel k σ = .err σe m) ∨
      (∃ k m, runFuel k σ = .crash m) ∨
      (∃ k σ2, runFuel k σ = .ok σ2 ∧
        σ2.frames = frB ++ [{ fr with ip := fr.ip + c.length }] ∧
        σ2.stack.length = σ.stack.length) := by
  intro e pool pool2 c σ frB fr fn hc hfr hfn hw hpre
  cases hce : compileExpr e pool with
  | none => simp [compileExprStatement, hce] at hc
  | some cp =>
    obtain ⟨ce, p⟩ := cp
    simp only [compileExprStatement, hce, Option.bind_eq_bind, Option.some_bind,
      Option.pure_def] at hc
    cases hc
    obtain ⟨hwe, hwpop⟩ := codeWindow_append _ _ hw
    rcases compileExpr_run e pool pool2 ce σ frB fr fn hce hfr hfn hwe hpre with
      herr | hcrash | ⟨k1, σ1, hrun1, hfr1, hfun1, hlen1⟩
    · exact Or.inl herr
    · exact Or.inr (Or.inl hcrash)
    · have hfn1 : σ1.functions.get? fr.f_idx = some fn := by rw [hfun1]; exact hfn
      have hopP : fn.chunk.code.get? (fr.ip + ce.length) = some .Pop :=
        window_single hwpop
      obtain ⟨σ2, hstep, hfrm, hfun, hst⟩ :=
        step_pop hfr1 hfn1 hopP
      refine Or.inr (Or.inr ⟨k1 + 1, σ2,
        by rw [runFuel_extend hrun1, runFuel_one, hstep], ?_, ?_⟩)
      · rw [hfrm, hfr1, bumpIp_concat]
        exact frames_ip_eq frB fr _ _
          (by simp only [BinOp.emitted, List.length_append, List.length_cons, List.length_nil]; omega)
      · rw [hst, List.length_dropLast]
        omega

/-- Witness for C8: the statement `nil;` executed from the concrete
`exprStmtState` — the run completes with the stack back at its original
size. -/
theorem expression_statement_neutral_witness :
    (∃ k σe m, runFuel k exprStmtState = .err σe m) ∨
    (∃ k m, runFuel k exprStmtState = .crash m) ∨
    (∃ k σ2, runFuel k exprStmtState = .ok σ2 ∧
      σ2.frames = [(⟨0, 2, 0⟩ : CallFrame)] ∧
      σ2.stack.length = exprStmtState.stack.length) :=
  expression_statement_neutral .litNil [] [] [.Nil, .Pop] exprStmtState []
    ⟨0, 0, 0⟩ exprStmtFn rfl rfl rfl (by unfold codeWindow; decide) ⟨[], rfl⟩

end Lox
